import Mathlib

/-!
The ettercap user-interface relay, `src/ec_ui.c`.

A shallow embedding of `ec_ui.c`: the capability table `ui`, the message queue
`messages_queue`, the lifecycle entry points `ui_init`, `ui_start`, `ui_cleanup`,
the producer `ui_msg`, the consumer `ui_msg_flush` and `ui_register`.

Conventions of the embedding.

* The three globals of the file (`ui`, `messages_queue` and the outside world that
  the callbacks act on) are the fields of `State`; every C function becomes a
  function on `State`.
* A function pointer is `Option Callee`, `none` being `NULL`.  The callbacks are
  external code: calling one appends an `Event` to `State.trace`, which is the
  sequence of capability invocations made so far.
* `int` variables are `Int` without wrap-around.  The counter `i` of
  `ui_msg_flush` cannot overflow while the queue holds fewer than `2^31`
  messages, and `size` of `ui_msg` is taken unbounded.
* The calls are run one after the other, so `UI_MSG_LOCK` and `UI_MSG_UNLOCK`
  have no effect; `DEBUG_MSG` and `SAFE_FREE` do not touch the modelled state.
* A fatal `ON_ERROR` and a call through a null pointer end the run; the result
  is `Except.error` carrying the reason and the state at that point.
-/

namespace EcUi

/-! ## Data model -/

/-- The code a function pointer refers to: the C library `printf` (the default
display hook) or a function supplied by a user interface, told apart by its address. -/
inductive Callee where
  | printf
  | backend (addr : Nat)
  deriving DecidableEq, Repr

/-- The `struct ui_ops` of `ec_ui.h`: four hooks and the `initialized` flag. -/
structure ui_ops where
  ui_init : Option Callee
  ui_start : Option Callee
  ui_cleanup : Option Callee
  ui_msg : Option Callee
  initialized : Int
  deriving DecidableEq, Repr

/-- The `struct ui_message`: `message` is the content of the NUL-terminated buffer
the node points to and `size` the number of bytes allocated for that buffer. -/
structure ui_message where
  message : String
  size : Int
  deriving DecidableEq, Repr

/-- One invocation of a capability of the active table. -/
inductive Event where
  | init (f : Callee)
  | start (f : Callee)
  | cleanup (f : Callee)
  | msg (f : Callee) (text : String)
  deriving DecidableEq, Repr

/-- The globals of `ec_ui.c` together with the log of capability invocations. -/
structure State where
  ui : ui_ops
  messages_queue : List ui_message
  trace : List Event
  deriving DecidableEq, Repr

/-- Why a run stopped. -/
inductive Abort where
  | error_msg (text : String)
  | null_call
  deriving DecidableEq, Repr

deriving instance DecidableEq for Except

/-- Result of a C function on the state: a value, or the abort and the state at
the point where the process stopped. -/
abbrev Run (α : Type) := Except (Abort × State) α

/-- The static initialiser of `ui` (lines 38-44). -/
def ui_default : ui_ops :=
  { ui_init := none
    ui_start := none
    ui_cleanup := none
    ui_msg := some Callee.printf
    initialized := 0 }

/-- The state at program start: default hooks, `SIMPLEQ_HEAD_INITIALIZER`, nothing called. -/
def initial : State :=
  { ui := ui_default, messages_queue := [], trace := [] }

/-! ## Macros of `ec.h` and the C library -/

/-- Modelled from the spec: the `EXECUTE` macro of `ec.h`, which is not part of the
source file.  The default backend, whose `ui_init`, `ui_start` and `ui_cleanup` are
`NULL`, "supplies no-op init/start/cleanup": a null hook is skipped, any other hook
is called. -/
def EXECUTE (x : Option Callee) (ev : Callee → Event) (s : State) : State :=
  match x with
  | some f => { s with trace := s.trace ++ [ev f] }
  | none => s

/-- Modelled from the spec: the `ON_ERROR` macro of `ec.h`, which is not part of the
source file.  `ON_ERROR(x, NULL, msg)` is a "fatal abort" with the diagnostic `msg`
exactly when `x` is null. -/
def ON_ERROR {α : Type} (x : Option α) (msg : String) (s : State) : Run α :=
  match x with
  | some a => Except.ok a
  | none => Except.error (Abort.error_msg msg, s)

/-- The part of the C library `ui_msg` depends on.  `legacy` selects the glibc 2.0
`vsnprintf`, which answers `-1` when the text does not fit instead of the length
needed; `alloc k` tells whether the `k`-th allocation request of a call
(`calloc` or `realloc`) is served. -/
structure Libc where
  legacy : Bool
  alloc : Nat → Bool

/-- The pointer returned by the `k`-th allocation request: `none` is `NULL`. -/
def Libc.request (libc : Libc) (k : Nat) : Option Unit :=
  if libc.alloc k then some () else none

/-- A C library whose allocations never fail. -/
def Libc.plenty (legacy : Bool) : Libc :=
  { legacy := legacy, alloc := fun _ => true }

/-- The render primitive `vsnprintf(buf, size, fmt, ap)`, where `rendered` is the text
that `fmt` and its arguments expand to.  Returns `n` and the content left in the
buffer: at most `size - 1` characters are stored before the terminator. -/
def vsnprintf (legacy : Bool) (rendered : String) (size : Int) : Int × String :=
  if (rendered.length : Int) < size then
    ((rendered.length : Int), rendered)
  else
    (if legacy then -1 else (rendered.length : Int),
     String.mk (rendered.data.take (size - 1).toNat))

/-! ## Lifecycle entry points -/

/-- `ui_init` (lines 66-73). -/
def ui_init (s : State) : State :=
  let s := EXECUTE s.ui.ui_init Event.init s
  { s with ui := { s.ui with initialized := 1 } }

/-- `ui_start` (lines 77-82). -/
def ui_start (s : State) : State :=
  EXECUTE s.ui.ui_start Event.start s

/-- `ui_cleanup` (lines 86-93). -/
def ui_cleanup (s : State) : State :=
  if s.ui.initialized ≠ 0 then
    let s := EXECUTE s.ui.ui_cleanup Event.cleanup s
    { s with ui := { s.ui with initialized := 0 } }
  else
    s

/-! ## Producer -/

/-- The `while (1)` of `ui_msg` (lines 119-137), entered with a buffer of `size`
bytes; `k` numbers the next allocation request.  Returns the final `size` and the
buffer content. -/
def ui_msg_loop (libc : Libc) (rendered : String) (s : State)
    (size : Int) (hsize : 0 < size) (k : Nat) : Run (Int × String) :=
  let r := vsnprintf libc.legacy rendered size
  if h : r.1 > -1 ∧ r.1 < size then
    Except.ok (size, r.2)
  else
    let size1 : Int := if r.1 > -1 then r.1 + 1 else size * 2
    have hsize1 : 0 < size1 := by
      show 0 < (if r.1 > -1 then r.1 + 1 else size * 2)
      split <;> omega
    do
      ON_ERROR (libc.request k) "can't allocate memory" s
      ui_msg_loop libc rendered s size1 hsize1 (k + 1)
termination_by ((rendered.length : Int) + 1 - size).toNat
decreasing_by
  have hr : (vsnprintf libc.legacy rendered size).1 =
      if (rendered.length : Int) < size then (rendered.length : Int)
      else if libc.legacy then -1 else (rendered.length : Int) := by
    unfold vsnprintf
    split <;> rfl
  have h1 : ¬((vsnprintf libc.legacy rendered size).1 > -1 ∧
      (vsnprintf libc.legacy rendered size).1 < size) := h
  rw [hr] at h1
  simp only [hr]
  split_ifs at h1 ⊢ <;> omega

/-- `ui_msg` (lines 101-151); `rendered` is the text that the format and its
arguments expand to.  The node is request 0, the first buffer request 1 and the
`realloc`s follow. -/
def ui_msg (libc : Libc) (rendered : String) (s : State) : Run State := do
  ON_ERROR (libc.request 0) "can't allocate ui_message" s
  let size : Int := 50
  ON_ERROR (libc.request 1) "can't allocate memory" s
  let r ← ui_msg_loop libc rendered s size (by decide) 2
  pure { s with messages_queue := s.messages_queue ++ [{ message := r.2, size := r.1 }] }

/-- The number of render attempts (calls of `vsnprintf`) that the `while (1)` of
`ui_msg` (lines 119-137) makes when it is entered with a buffer of `size` bytes and
every `realloc` is served: one per iteration, the last being the one that fits. -/
def ui_msg_attempts (legacy : Bool) (rendered : String)
    (size : Int) (hsize : 0 < size) : Nat :=
  let r := vsnprintf legacy rendered size
  if h : r.1 > -1 ∧ r.1 < size then
    1
  else
    let size1 : Int := if r.1 > -1 then r.1 + 1 else size * 2
    have hsize1 : 0 < size1 := by
      show 0 < (if r.1 > -1 then r.1 + 1 else size * 2)
      split <;> omega
    ui_msg_attempts legacy rendered size1 hsize1 + 1
termination_by ((rendered.length : Int) + 1 - size).toNat
decreasing_by
  have hr : (vsnprintf legacy rendered size).1 =
      if (rendered.length : Int) < size then (rendered.length : Int)
      else if legacy then -1 else (rendered.length : Int) := by
    unfold vsnprintf
    split <;> rfl
  have h1 : ¬((vsnprintf legacy rendered size).1 > -1 ∧
      (vsnprintf legacy rendered size).1 < size) := h
  rw [hr] at h1
  simp only [hr]
  split_ifs at h1 ⊢ <;> omega

/-! ## Consumer -/

/-- The `while` of `ui_msg_flush` (lines 170-184).  The list argument is the content
of `messages_queue` on entry to the iteration, `i` the number of messages shown so
far.  `ui.ui_msg` is called without a null test. -/
def ui_msg_flush_loop (max : Int) : List ui_message → Int → State → Run (Int × State)
  | [], i, s => Except.ok (i, s)
  | msg :: rest, i, s =>
    match s.ui.ui_msg with
    | none => Except.error (Abort.null_call, s)
    | some f =>
      let s := { s with trace := s.trace ++ [Event.msg f msg.message] }
      let s := { s with messages_queue := rest }
      let i := i + 1
      if i = max then Except.ok (i, s) else ui_msg_flush_loop max rest i s

/-- `ui_msg_flush` (lines 158-191): the returned `int` and the new state. -/
def ui_msg_flush (max : Int) (s : State) : Run (Int × State) :=
  let i : Int := 0
  match s.messages_queue with
  | [] => Except.ok (0, s)
  | q => ui_msg_flush_loop max q i s

/-! ## Registration -/

/-- `ui_register` (lines 202-217): each hook is tested and then stored, one after
the other. -/
def ui_register (ops : ui_ops) (s : State) : Run State := do
  let _ ← ON_ERROR ops.ui_init "BUG: ui_init is equal to NULL" s
  let s := { s with ui := { s.ui with ui_init := ops.ui_init } }
  let _ ← ON_ERROR ops.ui_cleanup "BUG: ui_cleanup is equal to NULL" s
  let s := { s with ui := { s.ui with ui_cleanup := ops.ui_cleanup } }
  let _ ← ON_ERROR ops.ui_start "BUG: ui_start is equal to NULL" s
  let s := { s with ui := { s.ui with ui_start := ops.ui_start } }
  let _ ← ON_ERROR ops.ui_msg "BUG: ui_msg is equal to NULL" s
  let s := { s with ui := { s.ui with ui_msg := ops.ui_msg } }
  pure s

/-! ## Sequences of calls -/

/-- A call of one of the six entry points, with its arguments. -/
inductive Call where
  | ui_init
  | ui_start
  | ui_cleanup
  | ui_msg (libc : Libc) (rendered : String)
  | ui_msg_flush (max : Int)
  | ui_register (ops : ui_ops)

/-- Run one call; the list holds the value returned by a `ui_msg_flush`. -/
def exec (c : Call) (s : State) : Run (List Int × State) :=
  match c with
  | Call.ui_init => pure ([], ui_init s)
  | Call.ui_start => pure ([], ui_start s)
  | Call.ui_cleanup => pure ([], ui_cleanup s)
  | Call.ui_msg libc rendered => do
    let s1 ← ui_msg libc rendered s
    pure ([], s1)
  | Call.ui_msg_flush max => do
    let r ← ui_msg_flush max s
    pure ([r.1], r.2)
  | Call.ui_register ops => do
    let s1 ← ui_register ops s
    pure ([], s1)

/-- Run the calls one after the other; the list collects the values returned by the
`ui_msg_flush` calls, in call order. -/
def run : List Call → State → Run (List Int × State)
  | [], s => pure ([], s)
  | c :: cs, s => do
    let r ← exec c s
    let rs ← run cs r.2
    pure (r.1 ++ rs.1, rs.2)

/-! ## Observations -/

/-- The texts handed to the display capability, in call order. -/
def displayed (tr : List Event) : List String :=
  tr.filterMap fun e =>
    match e with
    | Event.msg _ text => some text
    | _ => none

/-- The texts waiting in a queue, head first. -/
def texts (q : List ui_message) : List String :=
  q.map fun m => m.message

/-- The texts that the `ui_msg` calls of a sequence render, in call order. -/
def enqueued (cs : List Call) : List String :=
  cs.filterMap fun c =>
    match c with
    | Call.ui_msg _ rendered => some rendered
    | _ => none

/-- The number of invocations of the cleanup capability recorded in a trace. -/
def cleanups (tr : List Event) : Nat :=
  tr.countP fun e =>
    match e with
    | Event.cleanup _ => true
    | _ => false

/-- The number of messages one run of the `while` of `ui_msg_flush` shows when it is
entered with counter `i` and `len` queued messages: the test `++i == max` stops it
after `max - i` messages when `i < max`, and never otherwise. -/
def shown (max i : Int) (len : Nat) : Nat :=
  if i < max then min (max - i).toNat len else len

/-- A call that cannot abort for lack of memory or for a missing hook: the allocator
of a `ui_msg` serves every request and a registered table has its four hooks. -/
def served (c : Call) : Prop :=
  match c with
  | Call.ui_msg libc _ => ∀ k, libc.alloc k = true
  | Call.ui_register ops =>
    ops.ui_init ≠ none ∧ ops.ui_cleanup ≠ none ∧ ops.ui_start ≠ none ∧ ops.ui_msg ≠ none
  | _ => True

/-- The four hooks of a table, in the order in which `ui_register` tests them. -/
inductive Slot where
  | ui_init
  | ui_cleanup
  | ui_start
  | ui_msg
  deriving DecidableEq, Repr

/-- The name of a hook as the diagnostics of `ui_register` spell it. -/
def Slot.name : Slot → String
  | Slot.ui_init => "ui_init"
  | Slot.ui_cleanup => "ui_cleanup"
  | Slot.ui_start => "ui_start"
  | Slot.ui_msg => "ui_msg"

/-- The hook of a table held in a slot. -/
def Slot.get : Slot → ui_ops → Option Callee
  | Slot.ui_init, ops => ops.ui_init
  | Slot.ui_cleanup, ops => ops.ui_cleanup
  | Slot.ui_start, ops => ops.ui_start
  | Slot.ui_msg, ops => ops.ui_msg

/-- The first null hook of a table in the order `ui_init`, `ui_cleanup`, `ui_start`,
`ui_msg`, when there is one. -/
def first_null (ops : ui_ops) : Option Slot :=
  [Slot.ui_init, Slot.ui_cleanup, Slot.ui_start, Slot.ui_msg].find? fun sl =>
    decide (sl.get ops = none)

/-- The diagnostic of `ui_register` for a missing hook. -/
def diagnostic (sl : Slot) : String :=
  "BUG: " ++ sl.name ++ " is equal to NULL"

/-- A table that lacks only the display hook. -/
def ops_no_display : ui_ops :=
  { ui_init := some (Callee.backend 1)
    ui_start := some (Callee.backend 2)
    ui_cleanup := some (Callee.backend 3)
    ui_msg := none
    initialized := 0 }

/-- A complete table, as a user interface registers it. -/
def ops_full : ui_ops :=
  { ui_init := some (Callee.backend 1)
    ui_start := some (Callee.backend 2)
    ui_cleanup := some (Callee.backend 3)
    ui_msg := some (Callee.backend 4)
    initialized := 0 }

/-- A queue of messages with the given texts in buffers of 50 bytes. -/
def queue_of (ts : List String) : List ui_message :=
  ts.map fun t => { message := t, size := 50 }

/-! ## Lifecycle sequences -/

/-- Whether a call is a `ui_init`. -/
def Call.is_init : Call → Bool
  | Call.ui_init => true
  | _ => false

/-- Whether a call is a `ui_start`. -/
def Call.is_start : Call → Bool
  | Call.ui_start => true
  | _ => false

/-- Whether a call is a `ui_cleanup`. -/
def Call.is_cleanup : Call → Bool
  | Call.ui_cleanup => true
  | _ => false

/-- Whether a call is one of the three lifecycle entry points. -/
def Call.is_lifecycle (c : Call) : Bool :=
  c.is_init || c.is_start || c.is_cleanup

/-- The state after one lifecycle call; the other calls are left out. -/
def lifecycle (s : State) (c : Call) : State :=
  match c with
  | Call.ui_init => ui_init s
  | Call.ui_start => ui_start s
  | Call.ui_cleanup => ui_cleanup s
  | _ => s

/-- Whether a `ui_init` occurs in a sequence of calls after its most recent
`ui_cleanup`, or anywhere in it when it has no `ui_cleanup`. -/
def init_since_cleanup (cs : List Call) : Bool :=
  (cs.reverse.takeWhile fun c => !c.is_cleanup).any Call.is_init

/-- Whether a sequence of calls contains a `ui_init` and its last call that is not a
`ui_start` is a `ui_init`. -/
def last_is_init (cs : List Call) : Bool :=
  cs.any Call.is_init &&
    match (cs.filter fun c => !c.is_start).getLast? with
    | some c => c.is_init
    | none => false

/-- The state after `ui_register` of the complete table `ops_full` at program start. -/
def registered : State :=
  { initial with ui := ops_full }

/-! ## The table along a run -/

/-- Whether a call is a `ui_register`. -/
def Call.is_register : Call → Bool
  | Call.ui_register _ => true
  | _ => false

/-- The two shapes of the active table: the hooks of the static initialiser before any
registration, four non-null hooks after one. -/
def table_ok (complete : Bool) (u : ui_ops) : Prop :=
  if complete then
    u.ui_init ≠ none ∧ u.ui_start ≠ none ∧ u.ui_cleanup ≠ none ∧ u.ui_msg ≠ none
  else
    u.ui_init = none ∧ u.ui_start = none ∧ u.ui_cleanup = none ∧
      u.ui_msg = some Callee.printf

/-! ## The default display hook -/

/-- The characters that the C library `printf` writes for a format when it is called
with the format alone, as the default display hook is.  An ordinary character is
copied, `%%` writes one `%`, and any other conversion specification consumes an
argument that was not passed, which is undefined behaviour: `none`. -/
def printf_chars : List Char → Option (List Char)
  | [] => some []
  | c :: rest =>
    if c = '%' then
      match rest with
      | d :: rest2 => if d = '%' then (printf_chars rest2).map fun out => '%' :: out else none
      | [] => none
    else
      (printf_chars rest).map fun out => c :: out

/-- What `printf(format)` writes to the standard output, when that is defined. -/
def printf (format : String) : Option String :=
  (printf_chars format.data).map String.mk

/-- What each invocation of the default display hook recorded in a trace writes to the
standard output, in call order. -/
def written (tr : List Event) : List (Option String) :=
  tr.filterMap fun e =>
    match e with
    | Event.msg Callee.printf text => some (printf text)
    | _ => none

/-! ## The drain loop -/

theorem shown_cons (max i : Int) (len : Nat) (h : i + 1 ≠ max) :
    shown max i (len + 1) = shown max (i + 1) len + 1 := by
  unfold shown
  split_ifs <;> omega

theorem shown_stop (max i : Int) (len : Nat) (h : i + 1 = max) :
    shown max i (len + 1) = 1 := by
  unfold shown
  split_ifs <;> omega

/-- What the `while` of `ui_msg_flush` does from any entry point: it shows the first
`shown max i q.length` messages in queue order and leaves the rest. -/
theorem ui_msg_flush_loop_spec (max : Int) (f : Callee) :
    ∀ (q : List ui_message) (i : Int) (s : State), s.ui.ui_msg = some f →
      ui_msg_flush_loop max q i s =
        Except.ok (i + (shown max i q.length : Nat),
          (if q = [] then s else
            { ui := s.ui
              messages_queue := q.drop (shown max i q.length)
              trace := s.trace ++
                (q.take (shown max i q.length)).map fun m => Event.msg f m.message })) := by
  intro q
  induction q with
  | nil =>
    intro i s _
    simp [ui_msg_flush_loop, shown]
  | cons m rest ih =>
    intro i s hf
    rw [ui_msg_flush_loop, hf]
    by_cases hstop : i + 1 = max
    · simp [hstop, shown_stop max i rest.length hstop]
    · simp only [hstop, if_false]
      rw [ih (i + 1) { ui := s.ui, messages_queue := rest, trace := s.trace ++ [Event.msg f m.message] } hf,
        List.length_cons, shown_cons max i rest.length hstop]
      cases rest with
      | nil => simp [shown]
      | cons m2 rest2 =>
        simp
        omega

/-- The drain as a whole: `ui_msg_flush max` shows the first `shown max 0 _` queued
messages through the display hook `f` and keeps the others. -/
theorem ui_msg_flush_spec (max : Int) (s : State) (f : Callee) (hf : s.ui.ui_msg = some f) :
    ui_msg_flush max s =
      Except.ok (((shown max 0 s.messages_queue.length : Nat) : Int),
        { ui := s.ui
          messages_queue := s.messages_queue.drop (shown max 0 s.messages_queue.length)
          trace := s.trace ++
            (s.messages_queue.take (shown max 0 s.messages_queue.length)).map
              fun m => Event.msg f m.message }) := by
  obtain ⟨ui, q, tr⟩ := s
  cases q with
  | nil => simp [ui_msg_flush, shown]
  | cons m rest =>
    have hloop := ui_msg_flush_loop_spec max f (m :: rest) 0
      { ui := ui, messages_queue := m :: rest, trace := tr } hf
    simp only [ui_msg_flush]
    rw [hloop]
    simp

theorem shown_pos (max : Int) (len : Nat) (h : 1 ≤ max) :
    ((shown max 0 len : Nat) : Int) = min max (len : Int) := by
  unfold shown
  split_ifs <;> omega

theorem shown_nonpos (max : Int) (len : Nat) (h : max ≤ 0) : shown max 0 len = len := by
  unfold shown
  split_ifs <;> omega

theorem shown_le (max i : Int) (len : Nat) : shown max i len ≤ len := by
  unfold shown
  split_ifs <;> omega

/-! ## The formatter loop -/

/-- When the allocator serves every request, the `while (1)` of `ui_msg` ends, the
buffer holds the whole text, and the final size exceeds the length of the text. -/
theorem ui_msg_loop_ok (libc : Libc) (rendered : String) (s : State)
    (halloc : ∀ k, libc.alloc k = true) :
    ∀ (n : Nat) (size : Int) (hsize : 0 < size) (k : Nat),
      ((rendered.length : Int) + 1 - size).toNat = n →
      ∃ size1 : Int, ui_msg_loop libc rendered s size hsize k = Except.ok (size1, rendered) ∧
        (rendered.length : Int) < size1 ∧ size ≤ size1 := by
  intro n
  induction n using Nat.strong_induction_on with
  | _ n ih =>
    intro size hsize k hn
    rw [ui_msg_loop]
    by_cases hfit : (rendered.length : Int) < size
    · refine ⟨size, ?_, hfit, le_refl _⟩
      simp [vsnprintf, hfit]
      omega
    · have hreq : libc.request k = some () := by simp [Libc.request, halloc k]
      simp only [vsnprintf, hfit, if_false, hreq, ON_ERROR]
      have htest : ¬((if libc.legacy = true then (-1 : Int) else (rendered.length : Int)) > -1 ∧
          (if libc.legacy = true then (-1 : Int) else (rendered.length : Int)) < size) := by
        split_ifs <;> omega
      rw [dif_neg htest]
      simp only [bind, Except.bind]
      have hlt : ((rendered.length : Int) + 1 -
          (if (if libc.legacy = true then (-1 : Int) else (rendered.length : Int)) > -1 then
            (if libc.legacy = true then (-1 : Int) else (rendered.length : Int)) + 1
          else size * 2)).toNat < n := by
        split_ifs <;> omega
      obtain ⟨size1, heq, h1, h2⟩ := ih _ hlt _
        (by split_ifs <;> omega) (k + 1) rfl
      refine ⟨size1, heq, h1, ?_⟩
      have hge : size ≤ (if (if libc.legacy = true then (-1 : Int) else (rendered.length : Int)) > -1 then
            (if libc.legacy = true then (-1 : Int) else (rendered.length : Int)) + 1
          else size * 2) := by
        split_ifs <;> omega
      omega

/-- When the allocator serves every request, `ui_msg` returns and has appended one
node holding the whole text; nothing else changes. -/
theorem ui_msg_ok (libc : Libc) (rendered : String) (s : State)
    (halloc : ∀ k, libc.alloc k = true) :
    ∃ size : Int, ui_msg libc rendered s =
      Except.ok { ui := s.ui
                  messages_queue := s.messages_queue ++ [{ message := rendered, size := size }]
                  trace := s.trace } := by
  obtain ⟨size1, heq, -, -⟩ := ui_msg_loop_ok libc rendered s halloc _ 50 (by decide) 2 rfl
  refine ⟨size1, ?_⟩
  have h0 : libc.request 0 = some () := by simp [Libc.request, halloc 0]
  have h1 : libc.request 1 = some () := by simp [Libc.request, halloc 1]
  simp only [ui_msg, h0, h1, ON_ERROR, bind, Except.bind, heq, pure, Except.pure]

/-! ## Registration, case by case -/

/-- The outcome of `ui_register` in each of its five cases. -/
theorem ui_register_cases (ops : ui_ops) (s : State) :
    ui_register ops s =
      match ops.ui_init, ops.ui_cleanup, ops.ui_start, ops.ui_msg with
      | none, _, _, _ => Except.error (Abort.error_msg "BUG: ui_init is equal to NULL", s)
      | some a, none, _, _ =>
        Except.error (Abort.error_msg "BUG: ui_cleanup is equal to NULL",
          { s with ui := { s.ui with ui_init := some a } })
      | some a, some b, none, _ =>
        Except.error (Abort.error_msg "BUG: ui_start is equal to NULL",
          { s with ui := { s.ui with ui_init := some a, ui_cleanup := some b } })
      | some a, some b, some c, none =>
        Except.error (Abort.error_msg "BUG: ui_msg is equal to NULL",
          { s with ui := { s.ui with ui_init := some a, ui_cleanup := some b, ui_start := some c } })
      | some a, some b, some c, some d =>
        Except.ok { s with ui := { ui_init := some a, ui_cleanup := some b, ui_start := some c,
                                   ui_msg := some d, initialized := s.ui.initialized } } := by
  unfold ui_register
  cases h1 : ops.ui_init <;> cases h2 : ops.ui_cleanup <;> cases h3 : ops.ui_start <;>
    cases h4 : ops.ui_msg <;> rfl

/-! ## Observations along a run -/

theorem displayed_append (a b : List Event) :
    displayed (a ++ b) = displayed a ++ displayed b := by
  simp [displayed]

theorem displayed_msgs (f : Callee) (q : List ui_message) :
    displayed (q.map fun m => Event.msg f m.message) = texts q := by
  induction q with
  | nil => rfl
  | cons m rest ih =>
    simp only [List.map_cons, texts] at ih ⊢
    simp only [displayed, List.filterMap_cons] at ih ⊢
    rw [ih]

theorem displayed_EXECUTE (x : Option Callee) (ev : Callee → Event) (s : State)
    (hev : ∀ f, displayed [ev f] = []) :
    displayed (EXECUTE x ev s).trace = displayed s.trace := by
  cases x with
  | none => rfl
  | some f => simp [EXECUTE, displayed_append, hev f]

/-- One served call on a state with a display hook returns, keeps a display hook, and
moves texts only from the call to the queue and from the queue to the display. -/
theorem exec_served (c : Call) (s : State) (hc : served c) (hf : s.ui.ui_msg ≠ none) :
    ∃ (rets : List Int) (s1 : State), exec c s = Except.ok (rets, s1)
      ∧ s1.ui.ui_msg ≠ none
      ∧ displayed s1.trace ++ texts s1.messages_queue =
          displayed s.trace ++ texts s.messages_queue ++ enqueued [c]
      ∧ ((displayed s1.trace).length : Int) = (displayed s.trace).length + rets.sum := by
  cases c with
  | ui_init =>
    have hu : (ui_init s).ui.ui_msg = s.ui.ui_msg := by
      cases hx : s.ui.ui_init <;> simp [ui_init, EXECUTE, hx]
    refine ⟨[], ui_init s, rfl, by rw [hu]; exact hf, ?_, ?_⟩
    · have h := displayed_EXECUTE s.ui.ui_init Event.init s (fun _ => rfl)
      have hq : (ui_init s).messages_queue = s.messages_queue := by
        cases hx : s.ui.ui_init <;> simp [ui_init, EXECUTE, hx]
      have ht : (ui_init s).trace = (EXECUTE s.ui.ui_init Event.init s).trace := rfl
      rw [hq, ht, h]
      simp [enqueued]
    · have h := displayed_EXECUTE s.ui.ui_init Event.init s (fun _ => rfl)
      have ht : (ui_init s).trace = (EXECUTE s.ui.ui_init Event.init s).trace := rfl
      rw [ht, h]
      simp
  | ui_start =>
    have h := displayed_EXECUTE s.ui.ui_start Event.start s (fun _ => rfl)
    have hq : (ui_start s).messages_queue = s.messages_queue := by
      cases hx : s.ui.ui_start <;> simp [ui_start, EXECUTE, hx]
    have hu : (ui_start s).ui = s.ui := by
      cases hx : s.ui.ui_start <;> simp [ui_start, EXECUTE, hx]
    refine ⟨[], ui_start s, rfl, by rw [hu]; exact hf, ?_, ?_⟩
    · rw [hq]
      unfold ui_start
      rw [h]
      simp [enqueued]
    · unfold ui_start
      rw [h]
      simp
  | ui_cleanup =>
    have h := displayed_EXECUTE s.ui.ui_cleanup Event.cleanup s (fun _ => rfl)
    have ht : displayed (ui_cleanup s).trace = displayed s.trace := by
      by_cases hi : s.ui.initialized = 0
      · simp [ui_cleanup, hi]
      · simp only [ui_cleanup, ne_eq, hi, not_false_eq_true, if_true]
        exact h
    have hq : (ui_cleanup s).messages_queue = s.messages_queue := by
      by_cases hi : s.ui.initialized = 0
      · simp [ui_cleanup, hi]
      · cases hx : s.ui.ui_cleanup <;> simp [ui_cleanup, hi, EXECUTE, hx]
    have hu : (ui_cleanup s).ui.ui_msg = s.ui.ui_msg := by
      by_cases hi : s.ui.initialized = 0
      · simp [ui_cleanup, hi]
      · cases hx : s.ui.ui_cleanup <;> simp [ui_cleanup, hi, EXECUTE, hx]
    refine ⟨[], ui_cleanup s, rfl, by rw [hu]; exact hf, ?_, ?_⟩
    · rw [hq, ht]
      simp [enqueued]
    · rw [ht]
      simp
  | ui_msg libc rendered =>
    obtain ⟨size, heq⟩ := ui_msg_ok libc rendered s hc
    refine ⟨[], { ui := s.ui
                  messages_queue := s.messages_queue ++ [{ message := rendered, size := size }]
                  trace := s.trace }, ?_, hf, ?_, ?_⟩
    · simp only [exec, heq, bind, Except.bind, pure, Except.pure]
    · simp [texts, enqueued]
    · simp
  | ui_msg_flush max =>
    obtain ⟨f, hf1⟩ := Option.ne_none_iff_exists'.mp hf
    have heq := ui_msg_flush_spec max s f hf1
    refine ⟨[((shown max 0 s.messages_queue.length : Nat) : Int)],
      { ui := s.ui
        messages_queue := s.messages_queue.drop (shown max 0 s.messages_queue.length)
        trace := s.trace ++
          (s.messages_queue.take (shown max 0 s.messages_queue.length)).map
            fun m => Event.msg f m.message }, ?_, hf, ?_, ?_⟩
    · simp only [exec, heq, bind, Except.bind, pure, Except.pure]
    · simp only [displayed_append, displayed_msgs, texts, enqueued, List.filterMap_cons,
        List.filterMap_nil, List.append_nil, List.append_assoc, ← List.map_append,
        List.take_append_drop]
    · have hle := shown_le max 0 s.messages_queue.length
      simp only [displayed_append, displayed_msgs, texts, List.length_append, List.length_map,
        List.length_take, List.sum_cons, List.sum_nil]
      omega
  | ui_register ops =>
    obtain ⟨h1, h2, h3, h4⟩ := hc
    obtain ⟨a, ha⟩ := Option.ne_none_iff_exists'.mp h1
    obtain ⟨b, hb⟩ := Option.ne_none_iff_exists'.mp h2
    obtain ⟨c, hc⟩ := Option.ne_none_iff_exists'.mp h3
    obtain ⟨d, hd⟩ := Option.ne_none_iff_exists'.mp h4
    refine ⟨[], { s with ui := { ui_init := some a, ui_cleanup := some b, ui_start := some c,
                                 ui_msg := some d, initialized := s.ui.initialized } },
      ?_, by simp, ?_, ?_⟩
    · simp only [exec, ui_register_cases, ha, hb, hc, hd, bind, Except.bind, pure, Except.pure]
    · simp [enqueued]
    · simp

/-- A run of served calls from a state with a display hook returns; the texts shown
followed by the texts queued are those present at the start followed by the texts
enqueued, and the values returned by the drains count the texts shown. -/
theorem run_served :
    ∀ (cs : List Call) (s : State), (∀ c ∈ cs, served c) → s.ui.ui_msg ≠ none →
      ∃ (rets : List Int) (s1 : State), run cs s = Except.ok (rets, s1)
        ∧ s1.ui.ui_msg ≠ none
        ∧ displayed s1.trace ++ texts s1.messages_queue =
            displayed s.trace ++ texts s.messages_queue ++ enqueued cs
        ∧ ((displayed s1.trace).length : Int) = (displayed s.trace).length + rets.sum := by
  intro cs
  induction cs with
  | nil =>
    intro s _ hf
    exact ⟨[], s, rfl, hf, by simp [enqueued], by simp⟩
  | cons c cs ih =>
    intro s hserved hf
    obtain ⟨r1, s1, he, hf1, hcons1, hlen1⟩ :=
      exec_served c s (hserved c (List.mem_cons_self c cs)) hf
    obtain ⟨r2, s2, hr, hf2, hcons2, hlen2⟩ :=
      ih s1 (fun d hd => hserved d (List.mem_cons_of_mem c hd)) hf1
    refine ⟨r1 ++ r2, s2, ?_, hf2, ?_, ?_⟩
    · simp only [run, he, hr, bind, Except.bind, pure, Except.pure]
    · rw [hcons2, hcons1]
      have hsplit : enqueued (c :: cs) = enqueued [c] ++ enqueued cs := by
        simp only [enqueued]
        rw [← List.filterMap_append]
        rfl
      rw [hsplit]
      simp only [List.append_assoc]
    · rw [hlen2, hlen1, List.sum_append]
      omega

/-- Served `ui_msg` calls in a row return and append their texts to the queue in call
order; nothing is shown and the table is unchanged. -/
theorem run_ui_msgs :
    ∀ (ms : List (Libc × String)) (s : State), (∀ p ∈ ms, ∀ k, p.1.alloc k = true) →
      ∃ nodes : List ui_message,
        run (ms.map fun p => Call.ui_msg p.1 p.2) s =
            Except.ok ([], { ui := s.ui
                             messages_queue := s.messages_queue ++ nodes
                             trace := s.trace })
          ∧ texts nodes = ms.map Prod.snd := by
  intro ms
  induction ms with
  | nil =>
    intro s _
    exact ⟨[], by simp [run, pure, Except.pure], rfl⟩
  | cons p ms ih =>
    intro s halloc
    obtain ⟨size, heq⟩ := ui_msg_ok p.1 p.2 s (halloc p (List.mem_cons_self p ms))
    obtain ⟨nodes, hr, ht⟩ :=
      ih { ui := s.ui
           messages_queue := s.messages_queue ++ [{ message := p.2, size := size }]
           trace := s.trace } (fun q hq => halloc q (List.mem_cons_of_mem p hq))
    refine ⟨{ message := p.2, size := size } :: nodes, ?_, ?_⟩
    · simp only [List.map_cons, run, exec, heq, hr, bind, Except.bind, pure, Except.pure,
        List.append_assoc, List.singleton_append, List.append_nil]
    · simp only [texts, List.map_cons] at ht ⊢
      rw [ht]

/-! ## Claims on the drain -/

/-- C1 (counterexample): the returned count is not always `min(max, length q)`.  With
one queued message "A", `ui_msg_flush(0)` and `ui_msg_flush(-1)` both show it and return 1,
while the minimum is 0 and -1; on the empty queue `ui_msg_flush(-1)` returns 0, not -1. -/
theorem ui_msg_flush_count_counterexample :
    (ui_msg_flush 0 { initial with messages_queue := queue_of ["A"] }).map Prod.fst
        = Except.ok 1
      ∧ (1 : Int) ≠ min 0 ((queue_of ["A"]).length : Int)
      ∧ (ui_msg_flush (-1) { initial with messages_queue := queue_of ["A"] }).map Prod.fst
        = Except.ok 1
      ∧ (1 : Int) ≠ min (-1) ((queue_of ["A"]).length : Int)
      ∧ (ui_msg_flush (-1) initial).map Prod.fst = Except.ok 0
      ∧ (0 : Int) ≠ min (-1) (initial.messages_queue.length : Int) := by
  decide

/-- C1 (amended): for every queue content and every `max ≥ 1`, and for `max = 0` on the
empty queue, `ui_msg_flush(max)` run on a state with a non-null display hook returns
`min(max, length q)`. -/
theorem ui_msg_flush_count (max : Int) (s : State) (f : Callee)
    (hf : s.ui.ui_msg = some f)
    (hmax : 1 ≤ max ∨ (max = 0 ∧ s.messages_queue = [])) :
    ∃ s1 : State,
      ui_msg_flush max s = Except.ok (min max (s.messages_queue.length : Int), s1) := by
  have hn : ((shown max 0 s.messages_queue.length : Nat) : Int)
      = min max (s.messages_queue.length : Int) := by
    rcases hmax with h | ⟨h0, hq⟩
    · exact shown_pos max _ h
    · subst h0
      simp [hq, shown]
  rw [ui_msg_flush_spec max s f hf, hn]
  exact ⟨_, rfl⟩

/-- The count law at the queue "A", "B", "C" of the default backend with `max = 2`. -/
theorem ui_msg_flush_count_witness :
    ∃ s1 : State,
      ui_msg_flush 2 { initial with messages_queue := queue_of ["A", "B", "C"] } =
        Except.ok (min 2 ((queue_of ["A", "B", "C"]).length : Int), s1) :=
  ui_msg_flush_count 2 { initial with messages_queue := queue_of ["A", "B", "C"] }
    Callee.printf rfl (Or.inl (by decide))

/-- C3: for every queue content and every `max ≥ 1`, `ui_msg_flush(max)` shows exactly
the first `min(max, length q)` messages in queue order through the display hook and
leaves the remaining suffix in the queue, the table untouched.  With the queue
"A", "B", "C", `ui_msg_flush(2)` returns 2 and shows "A" then "B", and a second
`ui_msg_flush(2)` returns 1, shows "C" and empties the queue. -/
theorem ui_msg_flush_bounded (max : Int) (s : State) (f : Callee)
    (hf : s.ui.ui_msg = some f) (hmax : 1 ≤ max) :
    (ui_msg_flush max s =
      Except.ok (min max (s.messages_queue.length : Int),
        { ui := s.ui
          messages_queue := s.messages_queue.drop (min max (s.messages_queue.length : Int)).toNat
          trace := s.trace ++
            (texts (s.messages_queue.take (min max (s.messages_queue.length : Int)).toNat)).map
              (Event.msg f) }))
    ∧ (texts s.messages_queue = ["A", "B", "C"] →
        ∃ s1 s2 : State,
          ui_msg_flush 2 s = Except.ok (2, s1)
          ∧ s1.trace = s.trace ++ [Event.msg f "A", Event.msg f "B"]
          ∧ texts s1.messages_queue = ["C"]
          ∧ ui_msg_flush 2 s1 = Except.ok (1, s2)
          ∧ s2.trace = s1.trace ++ [Event.msg f "C"]
          ∧ s2.messages_queue = []) := by
  constructor
  · rw [ui_msg_flush_spec max s f hf, shown_pos max _ hmax]
    have hn : (min max (s.messages_queue.length : Int)).toNat
        = shown max 0 s.messages_queue.length := by
      rw [← shown_pos max _ hmax]
      simp
    rw [hn]
    simp [texts, Function.comp_def]
  · intro habc
    obtain ⟨ui, q, tr⟩ := s
    rcases q with _ | ⟨a, _ | ⟨b, _ | ⟨c, _ | ⟨d, r⟩⟩⟩⟩ <;> simp [texts] at habc
    obtain ⟨ha, hb, hc⟩ := habc
    refine ⟨_, _, ui_msg_flush_spec 2 _ f hf, ?_, ?_, ui_msg_flush_spec 2 _ f hf, ?_, ?_⟩
    · simp [shown, ha, hb]
    · simp [shown, texts, hc]
    · simp [shown, hc]
    · simp [shown]

/-- The bounded drain at the queue "A", "B" of the default backend with `max = 1`. -/
theorem ui_msg_flush_bounded_witness :
    ui_msg_flush 1 { initial with messages_queue := queue_of ["A", "B"] } =
      Except.ok (1, { ui := ui_default, messages_queue := queue_of ["B"],
                      trace := [Event.msg Callee.printf "A"] }) :=
  (ui_msg_flush_bounded 1 { initial with messages_queue := queue_of ["A", "B"] }
    Callee.printf rfl (by decide)).1

/-- C5: on a state whose queue is empty, `ui_msg_flush(max)` returns 0 for every
integer `max` and hands back the very same state: no capability is invoked and the
queue, the table and the `initialized` flag are unchanged. -/
theorem ui_msg_flush_empty (max : Int) (s : State) (hq : s.messages_queue = []) :
    ui_msg_flush max s = Except.ok (0, s) := by
  simp [ui_msg_flush, hq]

/-- The empty drain at the initial state with `max = -3`. -/
theorem ui_msg_flush_empty_witness :
    ui_msg_flush (-3) initial = Except.ok (0, initial) :=
  ui_msg_flush_empty (-3) initial rfl

/-! ## Claims on the producer -/

/-- C6: for every queue content and every rendered text `t`, a `ui_msg` whose
allocations are served returns with the queue extended by one node holding `t` at the
tail: the length grows by one, the earlier messages keep their positions, and the
table, the flag and the trace are unchanged. -/
theorem ui_msg_enqueue (libc : Libc) (t : String) (s : State)
    (halloc : ∀ k, libc.alloc k = true) :
    ∃ s1 : State, ui_msg libc t s = Except.ok s1
      ∧ texts s1.messages_queue = texts s.messages_queue ++ [t]
      ∧ s1.messages_queue.length = s.messages_queue.length + 1
      ∧ s1.messages_queue.take s.messages_queue.length = s.messages_queue
      ∧ s1.messages_queue.getLast?.map (fun m => m.message) = some t
      ∧ s1.ui = s.ui
      ∧ s1.trace = s.trace := by
  obtain ⟨size, heq⟩ := ui_msg_ok libc t s halloc
  refine ⟨_, heq, ?_, ?_, ?_, ?_, rfl, rfl⟩
  · simp [texts]
  · simp
  · simp
  · simp

/-- The enqueue of "C" behind "A" and "B" with the C99 render primitive. -/
theorem ui_msg_enqueue_witness :
    ∃ s1 : State, ui_msg (Libc.plenty false) "C" { initial with messages_queue := queue_of ["A", "B"] }
        = Except.ok s1
      ∧ texts s1.messages_queue = texts (queue_of ["A", "B"]) ++ ["C"]
      ∧ s1.messages_queue.length = (queue_of ["A", "B"]).length + 1
      ∧ s1.messages_queue.take (queue_of ["A", "B"]).length = queue_of ["A", "B"]
      ∧ s1.messages_queue.getLast?.map (fun m => m.message) = some "C"
      ∧ s1.ui = ui_default
      ∧ s1.trace = [] :=
  ui_msg_enqueue (Libc.plenty false) "C" { initial with messages_queue := queue_of ["A", "B"] }
    (fun _ => rfl)

/-! ## Claims on registration -/

/-- C7 (counterexample): registration is not atomic on failure.  Registering a table
whose display hook is null while the default backend is active is rejected, but at
that point `ui_init`, `ui_cleanup` and `ui_start` already hold the hooks of the
rejected table instead of the default null hooks. -/
theorem ui_register_atomic_counterexample :
    ∃ s1 : State,
      ui_register ops_no_display initial =
          Except.error (Abort.error_msg "BUG: ui_msg is equal to NULL", s1)
        ∧ initial.ui.ui_init = none ∧ s1.ui.ui_init = some (Callee.backend 1)
        ∧ initial.ui.ui_cleanup = none ∧ s1.ui.ui_cleanup = some (Callee.backend 3)
        ∧ initial.ui.ui_start = none ∧ s1.ui.ui_start = some (Callee.backend 2)
        ∧ s1.ui ≠ initial.ui :=
  ⟨_, rfl, rfl, rfl, rfl, rfl, rfl, rfl, by decide⟩

/-- C7 (amended): for every state and every table with a null hook, `ui_register` is
rejected with a fatal error.  At the point of rejection the hooks tested before the
first null one (in the order `ui_init`, `ui_cleanup`, `ui_start`, `ui_msg`) are those
of the rejected table, while the first null hook and the later ones, in particular the
display hook, together with the flag, the queue and the trace are as before the call;
the whole state is as before when `ui_init` is the null one. -/
theorem ui_register_rejected (ops : ui_ops) (s : State)
    (hnull : ops.ui_init = none ∨ ops.ui_cleanup = none ∨ ops.ui_start = none ∨
      ops.ui_msg = none) :
    ∃ (text : String) (s1 : State),
      ui_register ops s = Except.error (Abort.error_msg text, s1)
      ∧ s1.ui.ui_init = (if ops.ui_init = none then s.ui.ui_init else ops.ui_init)
      ∧ s1.ui.ui_cleanup =
          (if ops.ui_init = none ∨ ops.ui_cleanup = none then s.ui.ui_cleanup
           else ops.ui_cleanup)
      ∧ s1.ui.ui_start =
          (if ops.ui_init = none ∨ ops.ui_cleanup = none ∨ ops.ui_start = none
           then s.ui.ui_start else ops.ui_start)
      ∧ s1.ui.ui_msg = s.ui.ui_msg
      ∧ s1.ui.initialized = s.ui.initialized
      ∧ s1.messages_queue = s.messages_queue
      ∧ s1.trace = s.trace
      ∧ (ops.ui_init = none → s1 = s) := by
  rw [ui_register_cases]
  cases h1 : ops.ui_init <;> cases h2 : ops.ui_cleanup <;> cases h3 : ops.ui_start <;>
    cases h4 : ops.ui_msg <;> simp_all <;> exact ⟨_, _, ⟨rfl, rfl⟩, by simp⟩

/-- The rejection of a table without display hook at the initial state. -/
theorem ui_register_rejected_witness :
    ∃ (text : String) (s1 : State),
      ui_register ops_no_display initial = Except.error (Abort.error_msg text, s1)
      ∧ s1.ui.ui_init = (if ops_no_display.ui_init = none then initial.ui.ui_init
          else ops_no_display.ui_init)
      ∧ s1.ui.ui_cleanup =
          (if ops_no_display.ui_init = none ∨ ops_no_display.ui_cleanup = none
           then initial.ui.ui_cleanup else ops_no_display.ui_cleanup)
      ∧ s1.ui.ui_start =
          (if ops_no_display.ui_init = none ∨ ops_no_display.ui_cleanup = none ∨
              ops_no_display.ui_start = none
           then initial.ui.ui_start else ops_no_display.ui_start)
      ∧ s1.ui.ui_msg = initial.ui.ui_msg
      ∧ s1.ui.initialized = initial.ui.initialized
      ∧ s1.messages_queue = initial.messages_queue
      ∧ s1.trace = initial.trace
      ∧ (ops_no_display.ui_init = none → s1 = initial) :=
  ui_register_rejected ops_no_display initial (Or.inr (Or.inr (Or.inr rfl)))

/-- C8: `ui_register` raises the fatal error if and only if at least one of the four
hooks of the table is null, and the diagnostic it raises then names the first null
hook in the order `ui_init`, `ui_cleanup`, `ui_start`, `ui_msg`, a hook that is indeed
null in the table. -/
theorem ui_register_fails_iff (ops : ui_ops) (s : State) :
    ((∃ e, ui_register ops s = Except.error e) ↔
      (ops.ui_init = none ∨ ops.ui_cleanup = none ∨ ops.ui_start = none ∨ ops.ui_msg = none))
    ∧ (∀ (a : Abort) (s1 : State), ui_register ops s = Except.error (a, s1) →
        ∃ sl : Slot, first_null ops = some sl ∧ sl.get ops = none ∧
          a = Abort.error_msg (diagnostic sl)) := by
  rw [ui_register_cases]
  cases h1 : ops.ui_init <;> cases h2 : ops.ui_cleanup <;> cases h3 : ops.ui_start <;>
    cases h4 : ops.ui_msg <;>
    simp [first_null, Slot.get, h1, h2, h3, h4] <;> decide

/-- The diagnostic for a table without display hook names `ui_msg`. -/
theorem ui_register_fails_iff_witness :
    ∃ sl : Slot, first_null ops_no_display = some sl ∧ sl.get ops_no_display = none ∧
      Abort.error_msg "BUG: ui_msg is equal to NULL" = Abort.error_msg (diagnostic sl) :=
  (ui_register_fails_iff ops_no_display initial).2
    (Abort.error_msg "BUG: ui_msg is equal to NULL")
    { initial with ui := { ui_default with ui_init := some (Callee.backend 1),
                                           ui_cleanup := some (Callee.backend 3),
                                           ui_start := some (Callee.backend 2) } }
    rfl

/-- C9: for every state and every table whose four hooks are non-null, `ui_register`
returns and the active table then holds exactly the four hooks of that table, while
the `initialized` flag, the queue and the trace are unchanged. -/
theorem ui_register_success (ops : ui_ops) (s : State)
    (h1 : ops.ui_init ≠ none) (h2 : ops.ui_cleanup ≠ none) (h3 : ops.ui_start ≠ none)
    (h4 : ops.ui_msg ≠ none) :
    ui_register ops s =
      Except.ok { ui := { ui_init := ops.ui_init
                          ui_start := ops.ui_start
                          ui_cleanup := ops.ui_cleanup
                          ui_msg := ops.ui_msg
                          initialized := s.ui.initialized }
                  messages_queue := s.messages_queue
                  trace := s.trace } := by
  rw [ui_register_cases]
  cases h1 : ops.ui_init <;> cases h2 : ops.ui_cleanup <;> cases h3 : ops.ui_start <;>
    cases h4 : ops.ui_msg <;> simp_all

/-- The registration of a complete table after `ui_init` on the default backend. -/
theorem ui_register_success_witness :
    ui_register ops_full (ui_init initial) =
      Except.ok { ui := { ui_init := some (Callee.backend 1)
                          ui_start := some (Callee.backend 2)
                          ui_cleanup := some (Callee.backend 3)
                          ui_msg := some (Callee.backend 4)
                          initialized := 1 }
                  messages_queue := []
                  trace := [] } :=
  ui_register_success ops_full (ui_init initial) (by decide) (by decide) (by decide)
    (by decide)

/-! ## Claims on the lifecycle -/

/-- C10: for every state, two `ui_cleanup` calls in a row leave the state that one call
leaves and invoke the cleanup capability at most once; with a registered backend,
whose cleanup hook `f` is non-null, the two calls invoke `f` exactly once when the
flag was set before the first call and not at all otherwise. -/
theorem ui_cleanup_idempotent (s : State) :
    ui_cleanup (ui_cleanup s) = ui_cleanup s
    ∧ cleanups (ui_cleanup (ui_cleanup s)).trace ≤ cleanups s.trace + 1
    ∧ (∀ f : Callee, s.ui.ui_cleanup = some f →
        (ui_cleanup (ui_cleanup s)).trace =
            s.trace ++ (if s.ui.initialized ≠ 0 then [Event.cleanup f] else [])
          ∧ cleanups (ui_cleanup (ui_cleanup s)).trace =
            cleanups s.trace + (if s.ui.initialized ≠ 0 then 1 else 0)) := by
  have hidem : ui_cleanup (ui_cleanup s) = ui_cleanup s := by
    by_cases h : s.ui.initialized = 0
    · simp [ui_cleanup, h]
    · simp [ui_cleanup, h]
  rw [hidem]
  refine ⟨rfl, ?_, ?_⟩
  · by_cases h : s.ui.initialized = 0
    · simp [ui_cleanup, h]
    · cases hc : s.ui.ui_cleanup <;> simp [ui_cleanup, h, EXECUTE, hc, cleanups]
  · intro f hf
    by_cases h : s.ui.initialized = 0
    · simp [ui_cleanup, h]
    · simp [ui_cleanup, h, EXECUTE, hf, cleanups]

/-- Two cleanups of an initialised registered backend invoke its cleanup hook once. -/
theorem ui_cleanup_idempotent_witness :
    (ui_cleanup (ui_cleanup { initial with ui := { ops_full with initialized := 1 } })).trace =
        [] ++ (if (1 : Int) ≠ 0 then [Event.cleanup (Callee.backend 3)] else [])
      ∧ cleanups
          (ui_cleanup (ui_cleanup { initial with ui := { ops_full with initialized := 1 } })).trace =
        cleanups [] + (if (1 : Int) ≠ 0 then 1 else 0) :=
  (ui_cleanup_idempotent { initial with ui := { ops_full with initialized := 1 } }).2.2
    (Callee.backend 3) rfl

/-! ## Claims on whole runs -/

/-- C2: messages `m1 .. mk` enqueued by served `ui_msg` calls, in that order, onto an
empty queue with no drain in between are shown by a following `ui_msg_flush(N)` with
`N ≥ k` and `N ≥ 1` in exactly k invocations of the display hook, with the arguments
`m1, .., mk` in that order; the call returns k and leaves the queue empty. -/
theorem ui_msg_flush_fifo (ms : List (Libc × String)) (s : State) (f : Callee) (N : Int)
    (hq : s.messages_queue = []) (hf : s.ui.ui_msg = some f)
    (halloc : ∀ p ∈ ms, ∀ k, p.1.alloc k = true)
    (hN : (ms.length : Int) ≤ N) (h1 : 1 ≤ N) :
    ∃ s1 s2 : State,
      run (ms.map fun p => Call.ui_msg p.1 p.2) s = Except.ok ([], s1)
      ∧ s1.trace = s.trace
      ∧ ui_msg_flush N s1 = Except.ok ((ms.length : Int), s2)
      ∧ s2.trace = s.trace ++ ms.map (fun p => Event.msg f p.2)
      ∧ s2.messages_queue = [] := by
  obtain ⟨nodes, hr, ht⟩ := run_ui_msgs ms s halloc
  have hlen : nodes.length = ms.length := by
    have := congrArg List.length ht
    simpa [texts] using this
  have hshown : shown N 0 nodes.length = nodes.length := by
    unfold shown
    split_ifs <;> omega
  have hmap : (nodes.map fun m => Event.msg f m.message) =
      ms.map (fun p => Event.msg f p.2) := by
    have h2 : (nodes.map fun m => Event.msg f m.message) = (texts nodes).map (Event.msg f) := by
      simp [texts, Function.comp_def]
    rw [h2, ht]
    simp [Function.comp_def]
  refine ⟨{ ui := s.ui, messages_queue := s.messages_queue ++ nodes, trace := s.trace },
    { ui := s.ui, messages_queue := [], trace := s.trace ++ ms.map (fun p => Event.msg f p.2) },
    hr, rfl, ?_, rfl, rfl⟩
  rw [ui_msg_flush_spec N
    { ui := s.ui, messages_queue := s.messages_queue ++ nodes, trace := s.trace } f hf]
  simp only [hq, List.nil_append, hshown]
  rw [List.take_length, List.drop_length, hmap, hlen]

/-- The full drain of "A", "B" enqueued under either render primitive, with `N = 5`. -/
theorem ui_msg_flush_fifo_witness :
    ∃ s1 s2 : State,
      run ([(Libc.plenty false, "A"), (Libc.plenty true, "B")].map
          fun p => Call.ui_msg p.1 p.2) initial = Except.ok ([], s1)
      ∧ s1.trace = initial.trace
      ∧ ui_msg_flush 5 s1 = Except.ok ((2 : Int), s2)
      ∧ s2.trace = initial.trace ++
          [(Libc.plenty false, "A"), (Libc.plenty true, "B")].map
            (fun p => Event.msg Callee.printf p.2)
      ∧ s2.messages_queue = [] :=
  ui_msg_flush_fifo [(Libc.plenty false, "A"), (Libc.plenty true, "B")] initial
    Callee.printf 5 rfl rfl
    (fun p hp k => by
      simp only [List.mem_cons, List.mem_singleton, List.not_mem_nil, or_false] at hp
      rcases hp with rfl | rfl <;> rfl)
    (by decide) (by decide)

/-- C4: from a state with an empty queue, nothing shown yet and a display hook, every
sequence of served calls returns, and the texts shown so far followed by the texts
still queued are exactly the texts enqueued so far, in enqueue order; when the values
returned by the drains sum to the number of enqueues, the texts shown are exactly the
texts enqueued and the queue is empty. -/
theorem ui_conservation (cs : List Call) (s : State)
    (hq : s.messages_queue = []) (hd : displayed s.trace = [])
    (hf : s.ui.ui_msg ≠ none) (hserved : ∀ c ∈ cs, served c) :
    ∃ (rets : List Int) (s1 : State), run cs s = Except.ok (rets, s1)
      ∧ displayed s1.trace ++ texts s1.messages_queue = enqueued cs
      ∧ (rets.sum = ((enqueued cs).length : Int) →
          displayed s1.trace = enqueued cs ∧ s1.messages_queue = []) := by
  obtain ⟨rets, s1, hr, -, hcons, hlen⟩ := run_served cs s hserved hf
  rw [hq, hd] at hcons
  rw [hd] at hlen
  simp only [texts, List.map_nil, List.append_nil, List.nil_append] at hcons
  refine ⟨rets, s1, hr, hcons, ?_⟩
  intro hsum
  have hl := congrArg List.length hcons
  simp only [List.length_append, List.length_map, List.length_nil] at hl hlen
  have hz : s1.messages_queue.length = 0 := by omega
  have hnil : s1.messages_queue = [] := List.length_eq_zero.mp hz
  refine ⟨?_, hnil⟩
  rw [← hcons, hnil]
  simp

/-- Conservation along enqueue "A", enqueue "B", drain 1, enqueue "C", drain 0. -/
theorem ui_conservation_witness :
    ∃ (rets : List Int) (s1 : State),
      run [Call.ui_msg (Libc.plenty false) "A", Call.ui_msg (Libc.plenty true) "B",
           Call.ui_msg_flush 1, Call.ui_msg (Libc.plenty false) "C",
           Call.ui_msg_flush 0] initial = Except.ok (rets, s1)
      ∧ displayed s1.trace ++ texts s1.messages_queue =
          enqueued [Call.ui_msg (Libc.plenty false) "A", Call.ui_msg (Libc.plenty true) "B",
            Call.ui_msg_flush 1, Call.ui_msg (Libc.plenty false) "C", Call.ui_msg_flush 0]
      ∧ (rets.sum =
            ((enqueued [Call.ui_msg (Libc.plenty false) "A",
              Call.ui_msg (Libc.plenty true) "B", Call.ui_msg_flush 1,
              Call.ui_msg (Libc.plenty false) "C", Call.ui_msg_flush 0]).length : Int) →
          displayed s1.trace =
              enqueued [Call.ui_msg (Libc.plenty false) "A",
                Call.ui_msg (Libc.plenty true) "B", Call.ui_msg_flush 1,
                Call.ui_msg (Libc.plenty false) "C", Call.ui_msg_flush 0]
            ∧ s1.messages_queue = []) :=
  ui_conservation
    [Call.ui_msg (Libc.plenty false) "A", Call.ui_msg (Libc.plenty true) "B",
     Call.ui_msg_flush 1, Call.ui_msg (Libc.plenty false) "C", Call.ui_msg_flush 0]
    initial rfl rfl (by decide)
    (fun c hc => by
      simp only [List.mem_cons, List.mem_singleton, List.not_mem_nil, or_false] at hc
      rcases hc with rfl | rfl | rfl | rfl | rfl <;> first | trivial | exact fun _ => rfl)

/-! ## Lifecycle runs -/

/-- A sequence of lifecycle calls always returns, with no drain value, in the state
obtained by applying the calls one after the other. -/
theorem run_lifecycle :
    ∀ (cs : List Call) (s : State), (∀ c ∈ cs, c.is_lifecycle = true) →
      run cs s = Except.ok ([], cs.foldl lifecycle s) := by
  intro cs
  induction cs with
  | nil => intro s _; rfl
  | cons c cs ih =>
    intro s h
    have hc := h c (List.mem_cons_self c cs)
    have hrest := ih (lifecycle s c) (fun d hd => h d (List.mem_cons_of_mem c hd))
    cases c with
    | ui_init =>
      simp only [lifecycle] at hrest
      simp only [run, exec, pure, Except.pure, bind, Except.bind, List.foldl_cons, lifecycle,
        hrest, List.nil_append]
    | ui_start =>
      simp only [lifecycle] at hrest
      simp only [run, exec, pure, Except.pure, bind, Except.bind, List.foldl_cons, lifecycle,
        hrest, List.nil_append]
    | ui_cleanup =>
      simp only [lifecycle] at hrest
      simp only [run, exec, pure, Except.pure, bind, Except.bind, List.foldl_cons, lifecycle,
        hrest, List.nil_append]
    | ui_msg libc rendered => simp [Call.is_lifecycle, Call.is_init, Call.is_start, Call.is_cleanup] at hc
    | ui_msg_flush max => simp [Call.is_lifecycle, Call.is_init, Call.is_start, Call.is_cleanup] at hc
    | ui_register ops => simp [Call.is_lifecycle, Call.is_init, Call.is_start, Call.is_cleanup] at hc

/-- The flag after one lifecycle call: `ui_init` sets it, `ui_cleanup` clears it,
`ui_start` keeps it. -/
theorem lifecycle_flag (s : State) (c : Call) (hc : c.is_lifecycle = true) :
    (lifecycle s c).ui.initialized =
      if c.is_init then 1 else if c.is_cleanup then 0 else s.ui.initialized := by
  cases c with
  | ui_init => simp [lifecycle, ui_init, Call.is_init]
  | ui_start =>
    cases hx : s.ui.ui_start <;>
      simp [lifecycle, ui_start, EXECUTE, hx, Call.is_init, Call.is_cleanup]
  | ui_cleanup =>
    by_cases hi : s.ui.initialized = 0
    · simp [lifecycle, ui_cleanup, hi, Call.is_init, Call.is_cleanup]
    · simp [lifecycle, ui_cleanup, hi, Call.is_init, Call.is_cleanup]
  | ui_msg libc rendered => simp [Call.is_lifecycle, Call.is_init, Call.is_start, Call.is_cleanup] at hc
  | ui_msg_flush max => simp [Call.is_lifecycle, Call.is_init, Call.is_start, Call.is_cleanup] at hc
  | ui_register ops => simp [Call.is_lifecycle, Call.is_init, Call.is_start, Call.is_cleanup] at hc

/-- A lifecycle call changes no hook of the table. -/
theorem lifecycle_hooks (s : State) (c : Call) :
    (lifecycle s c).ui.ui_init = s.ui.ui_init
    ∧ (lifecycle s c).ui.ui_start = s.ui.ui_start
    ∧ (lifecycle s c).ui.ui_cleanup = s.ui.ui_cleanup
    ∧ (lifecycle s c).ui.ui_msg = s.ui.ui_msg
    ∧ (lifecycle s c).messages_queue = s.messages_queue := by
  cases c with
  | ui_init => cases hx : s.ui.ui_init <;> simp [lifecycle, ui_init, EXECUTE, hx]
  | ui_start => cases hx : s.ui.ui_start <;> simp [lifecycle, ui_start, EXECUTE, hx]
  | ui_cleanup =>
    by_cases hi : s.ui.initialized = 0
    · simp [lifecycle, ui_cleanup, hi]
    · cases hx : s.ui.ui_cleanup <;> simp [lifecycle, ui_cleanup, hi, EXECUTE, hx]
  | ui_msg libc rendered => simp [lifecycle]
  | ui_msg_flush max => simp [lifecycle]
  | ui_register ops => simp [lifecycle]

/-- Lifecycle calls change no hook of the table. -/
theorem foldl_lifecycle_hooks :
    ∀ (cs : List Call) (s : State),
      (cs.foldl lifecycle s).ui.ui_init = s.ui.ui_init
      ∧ (cs.foldl lifecycle s).ui.ui_start = s.ui.ui_start
      ∧ (cs.foldl lifecycle s).ui.ui_cleanup = s.ui.ui_cleanup
      ∧ (cs.foldl lifecycle s).ui.ui_msg = s.ui.ui_msg
      ∧ (cs.foldl lifecycle s).messages_queue = s.messages_queue := by
  intro cs
  induction cs with
  | nil => intro s; simp
  | cons c cs ih =>
    intro s
    obtain ⟨h1, h2, h3, h4, h5⟩ := ih (lifecycle s c)
    obtain ⟨g1, g2, g3, g4, g5⟩ := lifecycle_hooks s c
    simp only [List.foldl_cons]
    exact ⟨h1.trans g1, h2.trans g2, h3.trans g3, h4.trans g4, h5.trans g5⟩

/-- From a cleared flag, the flag after a lifecycle sequence is set exactly when a
`ui_init` follows the most recent `ui_cleanup` of the sequence. -/
theorem flag_since_cleanup (s : State) (h0 : s.ui.initialized = 0) (cs : List Call) :
    (∀ c ∈ cs, c.is_lifecycle = true) →
      ((cs.foldl lifecycle s).ui.initialized ≠ 0 ↔ init_since_cleanup cs = true) := by
  induction cs using List.reverseRecOn with
  | nil => intro _; simp [init_since_cleanup, h0]
  | append_singleton cs c ih =>
    intro h
    have hc : c.is_lifecycle = true := h c (by simp)
    have ih1 := ih (fun d hd => h d (by simp [hd]))
    rw [List.foldl_append, List.foldl_cons, List.foldl_nil, lifecycle_flag _ c hc]
    simp only [init_since_cleanup, List.reverse_append, List.reverse_cons, List.reverse_nil,
      List.nil_append, List.singleton_append, List.takeWhile_cons]
    simp only [init_since_cleanup] at ih1
    cases c with
    | ui_init => simp [Call.is_init, Call.is_cleanup]
    | ui_start => simpa [Call.is_init, Call.is_cleanup] using ih1
    | ui_cleanup => simp [Call.is_init, Call.is_cleanup]
    | ui_msg libc rendered => simp [Call.is_lifecycle, Call.is_init, Call.is_start, Call.is_cleanup] at hc
    | ui_msg_flush max => simp [Call.is_lifecycle, Call.is_init, Call.is_start, Call.is_cleanup] at hc
    | ui_register ops => simp [Call.is_lifecycle, Call.is_init, Call.is_start, Call.is_cleanup] at hc

/-- From a cleared flag, the flag after a lifecycle sequence is set exactly when the
sequence has a `ui_init` and its last call other than `ui_start` is a `ui_init`. -/
theorem flag_last_is_init (s : State) (h0 : s.ui.initialized = 0) (cs : List Call) :
    (∀ c ∈ cs, c.is_lifecycle = true) →
      ((cs.foldl lifecycle s).ui.initialized ≠ 0 ↔ last_is_init cs = true) := by
  induction cs using List.reverseRecOn with
  | nil => intro _; simp [last_is_init, h0]
  | append_singleton cs c ih =>
    intro h
    have hc : c.is_lifecycle = true := h c (by simp)
    have ih1 := ih (fun d hd => h d (by simp [hd]))
    rw [List.foldl_append, List.foldl_cons, List.foldl_nil, lifecycle_flag _ c hc]
    simp only [last_is_init, List.any_append, List.filter_append] at ih1 ⊢
    cases c with
    | ui_init => simp [Call.is_init, Call.is_cleanup, Call.is_start]
    | ui_start => simpa [Call.is_init, Call.is_cleanup, Call.is_start] using ih1
    | ui_cleanup => simp [Call.is_init, Call.is_cleanup, Call.is_start]
    | ui_msg libc rendered => simp [Call.is_lifecycle, Call.is_init, Call.is_start, Call.is_cleanup] at hc
    | ui_msg_flush max => simp [Call.is_lifecycle, Call.is_init, Call.is_start, Call.is_cleanup] at hc
    | ui_register ops => simp [Call.is_lifecycle, Call.is_init, Call.is_start, Call.is_cleanup] at hc

/-- While the flag is cleared, `ui_start` and `ui_cleanup` calls keep it cleared and
invoke no cleanup capability. -/
theorem foldl_start_cleanup :
    ∀ (cs : List Call) (s : State), s.ui.initialized = 0 →
      (∀ c ∈ cs, c.is_start = true ∨ c.is_cleanup = true) →
      (cs.foldl lifecycle s).ui.initialized = 0
      ∧ cleanups (cs.foldl lifecycle s).trace = cleanups s.trace := by
  intro cs
  induction cs with
  | nil => intro s h0 _; exact ⟨h0, rfl⟩
  | cons c cs ih =>
    intro s h0 h
    have hc := h c (List.mem_cons_self c cs)
    have hstep : (lifecycle s c).ui.initialized = 0
        ∧ cleanups (lifecycle s c).trace = cleanups s.trace := by
      cases c with
      | ui_init => simp [Call.is_start, Call.is_cleanup] at hc
      | ui_start =>
        cases hx : s.ui.ui_start <;> simp [lifecycle, ui_start, EXECUTE, hx, h0, cleanups]
      | ui_cleanup => simp [lifecycle, ui_cleanup, h0]
      | ui_msg libc rendered => simp [Call.is_start, Call.is_cleanup] at hc
      | ui_msg_flush max => simp [Call.is_start, Call.is_cleanup] at hc
      | ui_register ops => simp [Call.is_start, Call.is_cleanup] at hc
    obtain ⟨h1, h2⟩ := ih (lifecycle s c) hstep.1 (fun d hd => h d (List.mem_cons_of_mem c hd))
    simp only [List.foldl_cons]
    exact ⟨h1, h2.trans hstep.2⟩

/-- One lifecycle call on a table with init hook `fi` and start hook `fs` invokes `fi`
once when it is a `ui_init` and `fs` once when it is a `ui_start`, whatever the flag. -/
theorem lifecycle_counts (s : State) (fi fs : Callee) (hi : s.ui.ui_init = some fi)
    (hs : s.ui.ui_start = some fs) (c : Call) :
    (lifecycle s c).trace.count (Event.init fi) =
        s.trace.count (Event.init fi) + (if c.is_init then 1 else 0)
    ∧ (lifecycle s c).trace.count (Event.start fs) =
        s.trace.count (Event.start fs) + (if c.is_start then 1 else 0) := by
  cases c with
  | ui_init => simp [lifecycle, ui_init, EXECUTE, hi, Call.is_init, Call.is_start]
  | ui_start => simp [lifecycle, ui_start, EXECUTE, hs, Call.is_init, Call.is_start]
  | ui_cleanup =>
    by_cases h0 : s.ui.initialized = 0
    · simp [lifecycle, ui_cleanup, h0, Call.is_init, Call.is_start]
    · cases hx : s.ui.ui_cleanup <;>
        simp [lifecycle, ui_cleanup, h0, EXECUTE, hx, Call.is_init, Call.is_start]
  | ui_msg libc rendered => simp [lifecycle, Call.is_init, Call.is_start]
  | ui_msg_flush max => simp [lifecycle, Call.is_init, Call.is_start]
  | ui_register ops => simp [lifecycle, Call.is_init, Call.is_start]

/-- Along lifecycle calls the init hook is invoked once per `ui_init` and the start
hook once per `ui_start`. -/
theorem foldl_lifecycle_counts (fi fs : Callee) :
    ∀ (cs : List Call) (s : State), s.ui.ui_init = some fi → s.ui.ui_start = some fs →
      (cs.foldl lifecycle s).trace.count (Event.init fi) =
          s.trace.count (Event.init fi) + cs.countP Call.is_init
      ∧ (cs.foldl lifecycle s).trace.count (Event.start fs) =
          s.trace.count (Event.start fs) + cs.countP Call.is_start := by
  intro cs
  induction cs with
  | nil => intro s _ _; simp
  | cons c cs ih =>
    intro s hi hs
    obtain ⟨g1, g2, -, -, -⟩ := lifecycle_hooks s c
    obtain ⟨h1, h2⟩ := ih (lifecycle s c) (g1.trans hi) (g2.trans hs)
    obtain ⟨k1, k2⟩ := lifecycle_counts s fi fs hi hs c
    simp only [List.foldl_cons, List.countP_cons]
    rw [h1, h2, k1, k2]
    constructor <;> omega

/-! ## Claims on lifecycle sequences -/

/-- C11: the flag is cleared at program start and after a successful `ui_register`
there.  From a state with a cleared flag, a sequence of `ui_start` and `ui_cleanup`
calls returns, invokes no cleanup capability and leaves the flag cleared.  More
generally, after any sequence of lifecycle calls the flag is set, so that a further
`ui_cleanup` dispatches to the cleanup hook, exactly when a `ui_init` occurred after the
most recent `ui_cleanup` (or after the start when there is none): the cleanup hook `f`
of the table is then invoked once, and not at all otherwise; the null cleanup hook of
the default backend, a no-op, leaves nothing to invoke. -/
theorem ui_cleanup_needs_init (s0 : State) (h0 : s0.ui.initialized = 0) (cs : List Call) :
    (initial.ui.initialized = 0
      ∧ ∀ (ops : ui_ops) (s : State), ui_register ops initial = Except.ok s →
          s.ui.initialized = 0)
    ∧ ((∀ c ∈ cs, c.is_start = true ∨ c.is_cleanup = true) →
        ∃ s1 : State, run cs s0 = Except.ok ([], s1)
          ∧ cleanups s1.trace = cleanups s0.trace
          ∧ s1.ui.initialized = 0)
    ∧ ((∀ c ∈ cs, c.is_lifecycle = true) →
        ∃ s1 : State, run cs s0 = Except.ok ([], s1)
          ∧ (s1.ui.initialized ≠ 0 ↔ init_since_cleanup cs = true)
          ∧ (∀ f : Callee, s0.ui.ui_cleanup = some f →
              (ui_cleanup s1).trace =
                s1.trace ++ (if init_since_cleanup cs then [Event.cleanup f] else []))
          ∧ (s0.ui.ui_cleanup = none → (ui_cleanup s1).trace = s1.trace)) := by
  refine ⟨⟨rfl, ?_⟩, ?_, ?_⟩
  · intro ops s hreg
    rw [ui_register_cases] at hreg
    cases h1 : ops.ui_init <;> cases h2 : ops.ui_cleanup <;> cases h3 : ops.ui_start <;>
      cases h4 : ops.ui_msg <;> simp [h1, h2, h3, h4] at hreg
    rw [← hreg]
    rfl
  · intro h
    have hl : ∀ c ∈ cs, c.is_lifecycle = true := by
      intro c hc
      rcases h c hc with h1 | h1 <;> simp [Call.is_lifecycle, h1]
    obtain ⟨g1, g2⟩ := foldl_start_cleanup cs s0 h0 h
    exact ⟨_, run_lifecycle cs s0 hl, g2, g1⟩
  · intro hl
    have hflag := flag_since_cleanup s0 h0 cs hl
    obtain ⟨-, -, hhook, -, -⟩ := foldl_lifecycle_hooks cs s0
    refine ⟨_, run_lifecycle cs s0 hl, hflag, ?_, ?_⟩
    · intro f hf
      rw [hf] at hhook
      by_cases hp : init_since_cleanup cs = true
      · have hne : (cs.foldl lifecycle s0).ui.initialized ≠ 0 := hflag.mpr hp
        simp [ui_cleanup, hne, EXECUTE, hhook, hp]
      · have hz : (cs.foldl lifecycle s0).ui.initialized = 0 := by
          by_contra hne
          exact hp (hflag.mp hne)
        simp [ui_cleanup, hz, hp]
    · intro hnone
      rw [hnone] at hhook
      by_cases hz : (cs.foldl lifecycle s0).ui.initialized = 0
      · simp [ui_cleanup, hz]
      · simp [ui_cleanup, hz, EXECUTE, hhook]

/-- Cleanup, start, cleanup on the registered backend at program start invoke no
cleanup capability; after init, start a further cleanup invokes the hook. -/
theorem ui_cleanup_needs_init_witness :
    (∃ s1 : State,
        run [Call.ui_cleanup, Call.ui_start, Call.ui_cleanup] registered = Except.ok ([], s1)
          ∧ cleanups s1.trace = cleanups registered.trace
          ∧ s1.ui.initialized = 0)
    ∧ (∃ s1 : State,
        run [Call.ui_cleanup, Call.ui_init, Call.ui_start] registered = Except.ok ([], s1)
          ∧ (s1.ui.initialized ≠ 0 ↔
              init_since_cleanup [Call.ui_cleanup, Call.ui_init, Call.ui_start] = true)
          ∧ (∀ f : Callee, registered.ui.ui_cleanup = some f →
              (ui_cleanup s1).trace =
                s1.trace ++
                  (if init_since_cleanup [Call.ui_cleanup, Call.ui_init, Call.ui_start]
                   then [Event.cleanup f] else []))
          ∧ (registered.ui.ui_cleanup = none → (ui_cleanup s1).trace = s1.trace)) :=
  ⟨(ui_cleanup_needs_init registered rfl
      [Call.ui_cleanup, Call.ui_start, Call.ui_cleanup]).2.1 (by decide),
   (ui_cleanup_needs_init registered rfl
      [Call.ui_cleanup, Call.ui_init, Call.ui_start]).2.2 (by decide)⟩

/-- C12: from a state with a cleared flag, every sequence of `ui_init`, `ui_start` and
`ui_cleanup` calls returns, and the flag is set afterwards if and only if the sequence
contains a `ui_init` and its last call that is not a `ui_start` is a `ui_init`.  In
any state `ui_init` sets the flag, `ui_cleanup` clears it and `ui_start` keeps it. -/
theorem ui_flag_state_machine (s0 : State) (h0 : s0.ui.initialized = 0) (cs : List Call)
    (hcs : ∀ c ∈ cs, c.is_lifecycle = true) :
    (∃ s1 : State, run cs s0 = Except.ok ([], s1)
        ∧ (s1.ui.initialized ≠ 0 ↔ last_is_init cs = true))
    ∧ (∀ s : State, (ui_init s).ui.initialized = 1)
    ∧ (∀ s : State, (ui_cleanup s).ui.initialized = 0)
    ∧ (∀ s : State, (ui_start s).ui.initialized = s.ui.initialized) := by
  refine ⟨⟨_, run_lifecycle cs s0 hcs, flag_last_is_init s0 h0 cs hcs⟩, ?_, ?_, ?_⟩
  · intro s
    rfl
  · intro s
    by_cases hz : s.ui.initialized = 0
    · simp [ui_cleanup, hz]
    · simp [ui_cleanup, hz]
  · intro s
    cases hx : s.ui.ui_start <;> simp [ui_start, EXECUTE, hx]

/-- The flag after init, cleanup, init, start, start from program start is set. -/
theorem ui_flag_state_machine_witness :
    ∃ s1 : State,
      run [Call.ui_init, Call.ui_cleanup, Call.ui_init, Call.ui_start, Call.ui_start] initial
          = Except.ok ([], s1)
        ∧ (s1.ui.initialized ≠ 0 ↔
            last_is_init
              [Call.ui_init, Call.ui_cleanup, Call.ui_init, Call.ui_start, Call.ui_start]
              = true) :=
  (ui_flag_state_machine initial rfl
    [Call.ui_init, Call.ui_cleanup, Call.ui_init, Call.ui_start, Call.ui_start]
    (by decide)).1

/-- C13: on a table with init hook `fi` and start hook `fs`, as every registered
backend has, a sequence of lifecycle calls returns having invoked `fi` once per
`ui_init` call and `fs` once per `ui_start` call, whatever the flag was at each call;
`ui_init` invokes a non-null init hook in every state, and with the default backend it
invokes nothing and still sets the flag. -/
theorem ui_init_start_ungated (s0 : State) (fi fs : Callee)
    (hi : s0.ui.ui_init = some fi) (hs : s0.ui.ui_start = some fs) (cs : List Call)
    (hcs : ∀ c ∈ cs, c.is_lifecycle = true) :
    (∃ s1 : State, run cs s0 = Except.ok ([], s1)
        ∧ s1.trace.count (Event.init fi) =
            s0.trace.count (Event.init fi) + cs.countP Call.is_init
        ∧ s1.trace.count (Event.start fs) =
            s0.trace.count (Event.start fs) + cs.countP Call.is_start)
    ∧ (∀ (s : State) (f : Callee), s.ui.ui_init = some f →
        (ui_init s).trace = s.trace ++ [Event.init f] ∧ (ui_init s).ui.initialized = 1)
    ∧ (∀ (s : State) (f : Callee), s.ui.ui_start = some f →
        (ui_start s).trace = s.trace ++ [Event.start f])
    ∧ (ui_init initial).ui.initialized = 1
    ∧ (ui_init initial).trace = [] := by
  obtain ⟨h1, h2⟩ := foldl_lifecycle_counts fi fs cs s0 hi hs
  refine ⟨⟨_, run_lifecycle cs s0 hcs, h1, h2⟩, ?_, ?_, rfl, rfl⟩
  · intro s f hf
    simp [ui_init, EXECUTE, hf]
  · intro s f hf
    simp [ui_start, EXECUTE, hf]

/-- Init, init, start, cleanup, init on the registered backend invoke its init hook
three times and its start hook once. -/
theorem ui_init_start_ungated_witness :
    ∃ s1 : State,
      run [Call.ui_init, Call.ui_init, Call.ui_start, Call.ui_cleanup, Call.ui_init] registered
          = Except.ok ([], s1)
        ∧ s1.trace.count (Event.init (Callee.backend 1)) =
            registered.trace.count (Event.init (Callee.backend 1)) +
              [Call.ui_init, Call.ui_init, Call.ui_start, Call.ui_cleanup,
                Call.ui_init].countP Call.is_init
        ∧ s1.trace.count (Event.start (Callee.backend 2)) =
            registered.trace.count (Event.start (Callee.backend 2)) +
              [Call.ui_init, Call.ui_init, Call.ui_start, Call.ui_cleanup,
                Call.ui_init].countP Call.is_start :=
  (ui_init_start_ungated registered (Callee.backend 1) (Callee.backend 2) rfl rfl
    [Call.ui_init, Call.ui_init, Call.ui_start, Call.ui_cleanup, Call.ui_init]
    (by decide)).1

/-! ## Claims on the drain with a non-positive bound -/

/-- C19: for every queue content and every `max ≤ 0`, `ui_msg_flush(max)` shows all
the queued messages in queue order through the display hook, leaves the queue empty
and returns the length of the queue. -/
theorem ui_msg_flush_nonpositive (max : Int) (s : State) (f : Callee)
    (hf : s.ui.ui_msg = some f) (hmax : max ≤ 0) :
    ui_msg_flush max s =
      Except.ok ((s.messages_queue.length : Int),
        { ui := s.ui
          messages_queue := []
          trace := s.trace ++ (texts s.messages_queue).map (Event.msg f) }) := by
  rw [ui_msg_flush_spec max s f hf, shown_nonpos max _ hmax]
  simp [texts, Function.comp_def]

/-- The drain of "A", "B", "C" on the default backend with `max = 0` and `max = -7`. -/
theorem ui_msg_flush_nonpositive_witness :
    ui_msg_flush 0 { initial with messages_queue := queue_of ["A", "B", "C"] } =
        Except.ok (3, { ui := ui_default, messages_queue := [],
                        trace := [Event.msg Callee.printf "A", Event.msg Callee.printf "B",
                                  Event.msg Callee.printf "C"] })
    ∧ ui_msg_flush (-7) { initial with messages_queue := queue_of ["A", "B", "C"] } =
        Except.ok (3, { ui := ui_default, messages_queue := [],
                        trace := [Event.msg Callee.printf "A", Event.msg Callee.printf "B",
                                  Event.msg Callee.printf "C"] }) :=
  ⟨ui_msg_flush_nonpositive 0 { initial with messages_queue := queue_of ["A", "B", "C"] }
      Callee.printf rfl (by decide),
   ui_msg_flush_nonpositive (-7) { initial with messages_queue := queue_of ["A", "B", "C"] }
      Callee.printf rfl (by decide)⟩

/-! ## The formatter loop, attempt by attempt -/

/-- The value returned by `vsnprintf`: the length needed, or `-1` from the legacy
primitive when the text does not fit. -/
theorem vsnprintf_fst (legacy : Bool) (rendered : String) (size : Int) :
    (vsnprintf legacy rendered size).1 =
      if (rendered.length : Int) < size then (rendered.length : Int)
      else if legacy then -1 else (rendered.length : Int) := by
  unfold vsnprintf
  split <;> rfl

/-- The test that ends the loop holds exactly when the text fits the buffer. -/
theorem fits_iff (legacy : Bool) (rendered : String) (size : Int) :
    ((vsnprintf legacy rendered size).1 > -1 ∧ (vsnprintf legacy rendered size).1 < size) ↔
      (rendered.length : Int) < size := by
  rw [vsnprintf_fst]
  split_ifs <;> omega

/-- The size of the next buffer after an attempt that did not fit. -/
theorem next_size (legacy : Bool) (rendered : String) (size : Int)
    (hfit : ¬(rendered.length : Int) < size) :
    (if (vsnprintf legacy rendered size).1 > -1 then (vsnprintf legacy rendered size).1 + 1
      else size * 2) = if legacy then size * 2 else (rendered.length : Int) + 1 := by
  rw [vsnprintf_fst]
  cases legacy
  · simp only [hfit, if_false, Bool.false_eq_true]
    split_ifs <;> omega
  · simp [hfit]

theorem ui_msg_attempts_fit (legacy : Bool) (rendered : String) (size : Int)
    (hsize : 0 < size) (hfit : (rendered.length : Int) < size) :
    ui_msg_attempts legacy rendered size hsize = 1 := by
  rw [ui_msg_attempts]
  simp only [(fits_iff legacy rendered size).mpr hfit, and_self, dite_true]

theorem ui_msg_attempts_retry (legacy : Bool) (rendered : String) (size : Int)
    (hsize : 0 < size) (hfit : ¬(rendered.length : Int) < size)
    (hsize1 : 0 < (if legacy then size * 2 else (rendered.length : Int) + 1)) :
    ui_msg_attempts legacy rendered size hsize =
      ui_msg_attempts legacy rendered
        (if legacy then size * 2 else (rendered.length : Int) + 1) hsize1 + 1 := by
  have hno : ¬((vsnprintf legacy rendered size).1 > -1 ∧
      (vsnprintf legacy rendered size).1 < size) := fun h =>
    hfit ((fits_iff legacy rendered size).mp h)
  rw [ui_msg_attempts]
  simp only [hno, dite_false, next_size legacy rendered size hfit]

theorem ui_msg_loop_fit (libc : Libc) (rendered : String) (s : State) (size : Int)
    (hsize : 0 < size) (k : Nat) (hfit : (rendered.length : Int) < size) :
    ui_msg_loop libc rendered s size hsize k = Except.ok (size, rendered) := by
  rw [ui_msg_loop]
  simp only [(fits_iff libc.legacy rendered size).mpr hfit, and_self, dite_true]
  simp [vsnprintf, hfit]

theorem ui_msg_loop_retry (libc : Libc) (rendered : String) (s : State) (size : Int)
    (hsize : 0 < size) (k : Nat) (hfit : ¬(rendered.length : Int) < size)
    (hsize1 : 0 < (if libc.legacy then size * 2 else (rendered.length : Int) + 1)) :
    ui_msg_loop libc rendered s size hsize k =
      if libc.alloc k then
        ui_msg_loop libc rendered s
          (if libc.legacy then size * 2 else (rendered.length : Int) + 1) hsize1 (k + 1)
      else
        Except.error (Abort.error_msg "can't allocate memory", s) := by
  have hno : ¬((vsnprintf libc.legacy rendered size).1 > -1 ∧
      (vsnprintf libc.legacy rendered size).1 < size) := fun h =>
    hfit ((fits_iff libc.legacy rendered size).mp h)
  rw [ui_msg_loop]
  simp only [hno, dite_false, next_size libc.legacy rendered size hfit]
  cases ha : libc.alloc k <;> simp [ON_ERROR, Libc.request, ha, bind, Except.bind]

/-- With the C99 primitive the loop ends after at most one `realloc`: the buffer keeps
its size when the text fits and gets the length of the text plus one otherwise. -/
theorem ui_msg_loop_c99 (libc : Libc) (rendered : String) (s : State) (size : Int)
    (hsize : 0 < size) (k : Nat) (hleg : libc.legacy = false) (hk : libc.alloc k = true) :
    ui_msg_loop libc rendered s size hsize k =
      Except.ok (if (rendered.length : Int) < size then size else (rendered.length : Int) + 1,
        rendered) := by
  by_cases hfit : (rendered.length : Int) < size
  · rw [ui_msg_loop_fit libc rendered s size hsize k hfit, if_pos hfit]
  · have hsize1 : 0 < (if libc.legacy then size * 2 else (rendered.length : Int) + 1) := by
      rw [hleg]
      simp only [Bool.false_eq_true, if_false]
      omega
    rw [ui_msg_loop_retry libc rendered s size hsize k hfit hsize1, if_pos hk,
      ui_msg_loop_fit, if_neg hfit]
    · simp [hleg]
    · simp [hleg]

/-- With the C99 primitive `ui_msg` stores the text in a buffer of 50 bytes when the
text is shorter than 50 and of the length of the text plus one otherwise. -/
theorem ui_msg_c99 (libc : Libc) (rendered : String) (s : State)
    (hleg : libc.legacy = false) (halloc : ∀ k, libc.alloc k = true) :
    ui_msg libc rendered s =
      Except.ok { ui := s.ui
                  messages_queue := s.messages_queue ++
                    [{ message := rendered
                       size := if (rendered.length : Int) < 50 then 50
                               else (rendered.length : Int) + 1 }]
                  trace := s.trace } := by
  have h0 : libc.request 0 = some () := by simp [Libc.request, halloc 0]
  have h1 : libc.request 1 = some () := by simp [Libc.request, halloc 1]
  simp only [ui_msg, h0, h1, ON_ERROR, bind, Except.bind, pure, Except.pure,
    ui_msg_loop_c99 libc rendered s 50 (by decide) 2 hleg (halloc 2)]

theorem ui_msg_attempts_pos (legacy : Bool) (rendered : String) (size : Int)
    (hsize : 0 < size) : 1 ≤ ui_msg_attempts legacy rendered size hsize := by
  by_cases hfit : (rendered.length : Int) < size
  · rw [ui_msg_attempts_fit legacy rendered size hsize hfit]
  · have hsize1 : 0 < (if legacy then size * 2 else (rendered.length : Int) + 1) := by
      split_ifs <;> omega
    rw [ui_msg_attempts_retry legacy rendered size hsize hfit hsize1]
    omega

/-- With the C99 primitive the loop makes one attempt when the text fits the first
buffer and two otherwise. -/
theorem ui_msg_attempts_c99 (rendered : String) (size : Int) (hsize : 0 < size) :
    ui_msg_attempts false rendered size hsize =
      if (rendered.length : Int) < size then 1 else 2 := by
  by_cases hfit : (rendered.length : Int) < size
  · rw [ui_msg_attempts_fit false rendered size hsize hfit, if_pos hfit]
  · have hsize1 : 0 < (if false then size * 2 else (rendered.length : Int) + 1) := by
      simp only [Bool.false_eq_true, if_false]
      omega
    rw [ui_msg_attempts_retry false rendered size hsize hfit hsize1, ui_msg_attempts_fit,
      if_neg hfit]
    simp

/-- With the legacy primitive the loop doubles the buffer until the text fits: it
makes `k + 1` attempts when `k` is the least number of doublings that fits. -/
theorem ui_msg_attempts_legacy (rendered : String) :
    ∀ (k : Nat) (size : Int) (hsize : 0 < size),
      (rendered.length : Int) < size * 2 ^ k →
      (∀ j, j < k → size * 2 ^ j ≤ (rendered.length : Int)) →
      ui_msg_attempts true rendered size hsize = k + 1 := by
  intro k
  induction k with
  | zero =>
    intro size hsize hlt _
    rw [ui_msg_attempts_fit true rendered size hsize (by simpa using hlt)]
  | succ k ih =>
    intro size hsize hlt hle
    have hfit : ¬(rendered.length : Int) < size := by
      have := hle 0 (Nat.succ_pos k)
      simp only [pow_zero, mul_one] at this
      omega
    have hsize1 : 0 < (if true then size * 2 else (rendered.length : Int) + 1) := by
      simp only [if_true]
      omega
    rw [ui_msg_attempts_retry true rendered size hsize hfit hsize1]
    have hnext := ih (if true then size * 2 else (rendered.length : Int) + 1) hsize1
      (by
        simp only [if_true]
        rw [mul_assoc, ← pow_succ']
        exact hlt)
      (by
        intro j hj
        simp only [if_true]
        rw [mul_assoc, ← pow_succ']
        exact hle (j + 1) (Nat.succ_lt_succ hj))
    rw [hnext]

/-- The loop asks for one `realloc` between two attempts and for nothing else: it
returns exactly when the allocator serves as many requests as there are attempts but
one, numbered from `k`. -/
theorem ui_msg_loop_requests (libc : Libc) (rendered : String) (s : State) :
    ∀ (n : Nat) (size : Int) (hsize : 0 < size) (k : Nat),
      ((rendered.length : Int) + 1 - size).toNat = n →
      ((∃ r, ui_msg_loop libc rendered s size hsize k = Except.ok r) ↔
        ∀ j, j + 1 < ui_msg_attempts libc.legacy rendered size hsize →
          libc.alloc (k + j) = true) := by
  intro n
  induction n using Nat.strong_induction_on with
  | _ n ih =>
    intro size hsize k hn
    by_cases hfit : (rendered.length : Int) < size
    · rw [ui_msg_loop_fit libc rendered s size hsize k hfit,
        ui_msg_attempts_fit libc.legacy rendered size hsize hfit]
      constructor
      · intro _ j hj
        omega
      · intro _
        exact ⟨_, rfl⟩
    · have hsize1 : 0 < (if libc.legacy then size * 2 else (rendered.length : Int) + 1) := by
        split_ifs <;> omega
      have hlt : ((rendered.length : Int) + 1 -
          (if libc.legacy then size * 2 else (rendered.length : Int) + 1)).toNat < n := by
        split_ifs <;> omega
      have hrec := ih _ hlt _ hsize1 (k + 1) rfl
      have hpos := ui_msg_attempts_pos libc.legacy rendered _ hsize1
      rw [ui_msg_loop_retry libc rendered s size hsize k hfit hsize1,
        ui_msg_attempts_retry libc.legacy rendered size hsize hfit hsize1]
      cases ha : libc.alloc k with
      | false =>
        simp only [Bool.false_eq_true, if_false]
        constructor
        · rintro ⟨r, hr⟩
          cases hr
        · intro h
          have := h 0 (by omega)
          simp [ha] at this
      | true =>
        simp only [if_true]
        rw [hrec]
        constructor
        · intro h j hj
          cases j with
          | zero => simpa using ha
          | succ j =>
            have := h j (by omega)
            rw [← this]
            congr 1
            omega
        · intro h j hj
          have := h (j + 1) (by omega)
          rw [← this]
          congr 1
          omega

/-! ## Claims on the formatter -/

/-- C14: with the render primitive that stores the first `min(L, size - 1)` characters
of a rendering of length `L` and returns `L`, and with every allocation served, `ui_msg`
returns and the text of the node it appends to the queue is the complete rendered
string, of length `L`, for every `L`. -/
theorem ui_msg_formats (libc : Libc) (t : String) (s : State)
    (hleg : libc.legacy = false) (halloc : ∀ k, libc.alloc k = true) :
    (∀ size : Int, 0 < size →
        vsnprintf libc.legacy t size =
          ((t.length : Int),
            String.mk (t.data.take (min (t.length : Int) (size - 1)).toNat)))
    ∧ ∃ (s1 : State) (m : ui_message), ui_msg libc t s = Except.ok s1
        ∧ s1.messages_queue = s.messages_queue ++ [m]
        ∧ m.message = t
        ∧ m.message.length = t.length := by
  constructor
  · intro size hsize
    rw [hleg]
    unfold vsnprintf
    by_cases hfit : (t.length : Int) < size
    · have hmin : (min (t.length : Int) (size - 1)).toNat = t.data.length := by
        have : t.data.length = t.length := rfl
        omega
      simp only [hfit, if_true, hmin, List.take_length]
    · have hmin : min (t.length : Int) (size - 1) = size - 1 := by omega
      simp only [hfit, if_false, hmin, Bool.false_eq_true]
  · obtain ⟨size, heq⟩ := ui_msg_ok libc t s halloc
    exact ⟨_, { message := t, size := size }, heq, rfl, rfl, rfl⟩

/-- The formatter on texts of length 0, 49, 50, 51 and 500. -/
theorem ui_msg_formats_witness :
    (∃ (s1 : State) (m : ui_message),
        ui_msg (Libc.plenty false) (String.mk (List.replicate 0 'x')) initial = Except.ok s1
        ∧ s1.messages_queue = initial.messages_queue ++ [m]
        ∧ m.message = String.mk (List.replicate 0 'x')
        ∧ m.message.length = (String.mk (List.replicate 0 'x')).length)
    ∧ (∃ (s1 : State) (m : ui_message),
        ui_msg (Libc.plenty false) (String.mk (List.replicate 49 'x')) initial = Except.ok s1
        ∧ s1.messages_queue = initial.messages_queue ++ [m]
        ∧ m.message = String.mk (List.replicate 49 'x')
        ∧ m.message.length = (String.mk (List.replicate 49 'x')).length)
    ∧ (∃ (s1 : State) (m : ui_message),
        ui_msg (Libc.plenty false) (String.mk (List.replicate 50 'x')) initial = Except.ok s1
        ∧ s1.messages_queue = initial.messages_queue ++ [m]
        ∧ m.message = String.mk (List.replicate 50 'x')
        ∧ m.message.length = (String.mk (List.replicate 50 'x')).length)
    ∧ (∃ (s1 : State) (m : ui_message),
        ui_msg (Libc.plenty false) (String.mk (List.replicate 51 'x')) initial = Except.ok s1
        ∧ s1.messages_queue = initial.messages_queue ++ [m]
        ∧ m.message = String.mk (List.replicate 51 'x')
        ∧ m.message.length = (String.mk (List.replicate 51 'x')).length)
    ∧ (∃ (s1 : State) (m : ui_message),
        ui_msg (Libc.plenty false) (String.mk (List.replicate 500 'x')) initial = Except.ok s1
        ∧ s1.messages_queue = initial.messages_queue ++ [m]
        ∧ m.message = String.mk (List.replicate 500 'x')
        ∧ m.message.length = (String.mk (List.replicate 500 'x')).length) :=
  ⟨(ui_msg_formats (Libc.plenty false) _ initial rfl (fun _ => rfl)).2,
   (ui_msg_formats (Libc.plenty false) _ initial rfl (fun _ => rfl)).2,
   (ui_msg_formats (Libc.plenty false) _ initial rfl (fun _ => rfl)).2,
   (ui_msg_formats (Libc.plenty false) _ initial rfl (fun _ => rfl)).2,
   (ui_msg_formats (Libc.plenty false) _ initial rfl (fun _ => rfl)).2⟩

/-- C15: for every rendered text, of length `L`, the grow-and-retry loop of `ui_msg`
entered with the buffer of 50 bytes returns when the allocations are served.  With the
primitive that returns `L` it makes one render attempt if `L < 50` and two otherwise;
with the legacy primitive it makes `k + 1` attempts, `k` being the least number with
`50 * 2^k > L`.  The attempts are those of the loop: it returns exactly when the
allocator serves the `realloc` between each attempt and the next. -/
theorem ui_msg_terminates (t : String) (s : State) :
    (∀ libc : Libc, (∀ k, libc.alloc k = true) →
        ∃ size1 : Int, ui_msg_loop libc t s 50 (by decide) 2 = Except.ok (size1, t))
    ∧ ui_msg_attempts false t 50 (by decide) = (if t.length < 50 then 1 else 2)
    ∧ (∀ k : Nat, t.length < 50 * 2 ^ k → (∀ j, j < k → 50 * 2 ^ j ≤ t.length) →
        ui_msg_attempts true t 50 (by decide) = k + 1)
    ∧ (∀ libc : Libc,
        (∃ r, ui_msg_loop libc t s 50 (by decide) 2 = Except.ok r) ↔
          ∀ j, j + 1 < ui_msg_attempts libc.legacy t 50 (by decide) →
            libc.alloc (2 + j) = true) := by
  refine ⟨?_, ?_, ?_, ?_⟩
  · intro libc halloc
    obtain ⟨size1, heq, -, -⟩ := ui_msg_loop_ok libc t s halloc _ 50 (by decide) 2 rfl
    exact ⟨size1, heq⟩
  · rw [ui_msg_attempts_c99]
    by_cases h : t.length < 50
    · have h2 : (t.length : Int) < 50 := by omega
      rw [if_pos h, if_pos h2]
    · have h2 : ¬(t.length : Int) < 50 := by omega
      rw [if_neg h, if_neg h2]
  · intro k hlt hle
    apply ui_msg_attempts_legacy t k 50 (by decide)
    · exact_mod_cast hlt
    · intro j hj
      exact_mod_cast hle j hj
  · intro libc
    exact ui_msg_loop_requests libc t s _ 50 (by decide) 2 rfl

/-- A text of 120 characters takes two doublings, so three attempts, with the legacy
primitive. -/
theorem ui_msg_terminates_witness :
    ui_msg_attempts true (String.mk (List.replicate 120 'x')) 50 (by decide) = 2 + 1 :=
  (ui_msg_terminates (String.mk (List.replicate 120 'x')) initial).2.2.1 2
    (by decide) (by decide)

/-- C16 (counterexample): the text "hello", of length 5, is stored by `ui_msg` in a
buffer of 50 bytes, the initial guess, not of 6. -/
theorem ui_msg_buffer_size_counterexample :
    ui_msg (Libc.plenty false) "hello" initial =
        Except.ok { initial with messages_queue := [{ message := "hello", size := 50 }] }
      ∧ (50 : Int) ≠ ("hello".length : Int) + 1 :=
  ⟨ui_msg_c99 (Libc.plenty false) "hello" initial rfl (fun _ => rfl), by decide⟩

/-- C16 (amended): when the render primitive reports the required length `L` and the
allocations are served, the buffer that `ui_msg` stores in the queue holds the whole
text and has capacity exactly `L + 1` when `L ≥ 49`, and the initial 50 bytes when
`L < 50`. -/
theorem ui_msg_buffer_size (libc : Libc) (t : String) (s : State)
    (hleg : libc.legacy = false) (halloc : ∀ k, libc.alloc k = true) :
    ∃ (s1 : State) (m : ui_message), ui_msg libc t s = Except.ok s1
      ∧ s1.messages_queue = s.messages_queue ++ [m]
      ∧ m.message = t
      ∧ (49 ≤ t.length → m.size = (t.length : Int) + 1)
      ∧ (t.length < 50 → m.size = 50) := by
  refine ⟨_, _, ui_msg_c99 libc t s hleg halloc, rfl, rfl, ?_, ?_⟩
  · intro h
    show (if (t.length : Int) < 50 then (50 : Int) else (t.length : Int) + 1) = _
    split_ifs <;> omega
  · intro h
    show (if (t.length : Int) < 50 then (50 : Int) else (t.length : Int) + 1) = _
    split_ifs <;> omega

/-- The buffer of a text of 60 characters has 61 bytes. -/
theorem ui_msg_buffer_size_witness :
    ∃ (s1 : State) (m : ui_message),
      ui_msg (Libc.plenty false) (String.mk (List.replicate 60 'x')) initial = Except.ok s1
      ∧ s1.messages_queue = initial.messages_queue ++ [m]
      ∧ m.message = String.mk (List.replicate 60 'x')
      ∧ (49 ≤ (String.mk (List.replicate 60 'x')).length →
          m.size = ((String.mk (List.replicate 60 'x')).length : Int) + 1)
      ∧ ((String.mk (List.replicate 60 'x')).length < 50 → m.size = 50) :=
  ui_msg_buffer_size (Libc.plenty false) (String.mk (List.replicate 60 'x')) initial rfl
    (fun _ => rfl)

/-! ## The table along a run -/

/-- A `ui_msg` that returns has left the table alone. -/
theorem ui_msg_ui (libc : Libc) (t : String) (s s1 : State)
    (h : ui_msg libc t s = Except.ok s1) : s1.ui = s.ui := by
  unfold ui_msg at h
  cases h0 : libc.request 0 with
  | none => simp [h0, ON_ERROR, bind, Except.bind] at h
  | some _ =>
    cases h1 : libc.request 1 with
    | none => simp [h0, h1, ON_ERROR, bind, Except.bind] at h
    | some _ =>
      cases hl : ui_msg_loop libc t s 50 (by decide) 2 with
      | error e => simp [h0, h1, hl, ON_ERROR, bind, Except.bind] at h
      | ok r =>
        simp [h0, h1, hl, ON_ERROR, bind, Except.bind, pure, Except.pure] at h
        rw [← h]

/-- A call that returns keeps the shape of the table, or completes it when it is a
`ui_register`. -/
theorem exec_table (c : Call) (s s1 : State) (rets : List Int) (b : Bool)
    (h : exec c s = Except.ok (rets, s1)) (hok : table_ok b s.ui) :
    table_ok (b || c.is_register) s1.ui := by
  have hlife : ∀ d : Call, d.is_register = false → s1 = lifecycle s d →
      table_ok (b || d.is_register) s1.ui := by
    intro d hd hs1
    obtain ⟨g1, g2, g3, g4, -⟩ := lifecycle_hooks s d
    rw [hd, Bool.or_false, hs1]
    unfold table_ok at hok ⊢
    rw [g1, g2, g3, g4]
    exact hok
  cases c with
  | ui_init =>
    simp only [exec, pure, Except.pure, Except.ok.injEq, Prod.mk.injEq] at h
    exact hlife Call.ui_init rfl h.2.symm
  | ui_start =>
    simp only [exec, pure, Except.pure, Except.ok.injEq, Prod.mk.injEq] at h
    exact hlife Call.ui_start rfl h.2.symm
  | ui_cleanup =>
    simp only [exec, pure, Except.pure, Except.ok.injEq, Prod.mk.injEq] at h
    exact hlife Call.ui_cleanup rfl h.2.symm
  | ui_msg libc rendered =>
    cases hm : ui_msg libc rendered s with
    | error e => simp [exec, hm, bind, Except.bind] at h
    | ok s2 =>
      simp only [exec, hm, bind, Except.bind, pure, Except.pure, Except.ok.injEq,
        Prod.mk.injEq] at h
      rw [← h.2, ui_msg_ui libc rendered s s2 hm]
      simpa [Call.is_register] using hok
  | ui_msg_flush max =>
    have hdisp : s.ui.ui_msg ≠ none := by
      unfold table_ok at hok
      cases b
      · simp at hok
        simp [hok.2.2.2]
      · simp at hok
        exact hok.2.2.2
    obtain ⟨f, hf⟩ := Option.ne_none_iff_exists'.mp hdisp
    simp only [exec, ui_msg_flush_spec max s f hf, bind, Except.bind, pure, Except.pure,
      Except.ok.injEq, Prod.mk.injEq] at h
    rw [← h.2]
    simpa [Call.is_register] using hok
  | ui_register ops =>
    cases hr : ui_register ops s with
    | error e => simp [exec, hr, bind, Except.bind] at h
    | ok s2 =>
      simp only [exec, hr, bind, Except.bind, pure, Except.pure, Except.ok.injEq,
        Prod.mk.injEq] at h
      rw [← h.2]
      rw [ui_register_cases] at hr
      cases h1 : ops.ui_init <;> cases h2 : ops.ui_cleanup <;> cases h3 : ops.ui_start <;>
        cases h4 : ops.ui_msg <;> simp [h1, h2, h3, h4] at hr
      rw [← hr]
      simp [table_ok, Call.is_register]

/-- A run that returns has kept the shape of the table, or completed it when a
`ui_register` is among the calls. -/
theorem run_table :
    ∀ (cs : List Call) (s s1 : State) (rets : List Int) (b : Bool),
      run cs s = Except.ok (rets, s1) → table_ok b s.ui →
      table_ok (b || cs.any Call.is_register) s1.ui := by
  intro cs
  induction cs with
  | nil =>
    intro s s1 rets b h hok
    simp only [run, pure, Except.pure, Except.ok.injEq, Prod.mk.injEq] at h
    rw [← h.2]
    simpa using hok
  | cons c cs ih =>
    intro s s1 rets b h hok
    cases he : exec c s with
    | error e => simp [run, he, bind, Except.bind] at h
    | ok r =>
      cases hr : run cs r.2 with
      | error e => simp [run, he, hr, bind, Except.bind] at h
      | ok rs =>
        simp only [run, he, hr, bind, Except.bind, pure, Except.pure, Except.ok.injEq,
          Prod.mk.injEq] at h
        have h1 := exec_table c s r.2 r.1 b he hok
        have h2 := ih r.2 rs.2 rs.1 _ hr h1
        rw [← h.2, List.any_cons, ← Bool.or_assoc]
        exact h2

/-! ## Claims on the table and on the default display -/

/-- C17 (counterexample): at program start, and still after lifecycle calls and a
drain on the default backend, the slots `ui_init`, `ui_start` and `ui_cleanup` of the
active table are null. -/
theorem ui_table_counterexample :
    run [] initial = Except.ok ([], initial)
      ∧ initial.ui.ui_init = none
      ∧ initial.ui.ui_start = none
      ∧ initial.ui.ui_cleanup = none
      ∧ (run [Call.ui_init, Call.ui_start, Call.ui_msg_flush 1, Call.ui_cleanup] initial).map
          (fun r => (r.2.ui.ui_init, r.2.ui.ui_start, r.2.ui.ui_cleanup))
          = Except.ok (none, none, none) := by
  decide

/-- C17 (amended): in every state reached from program start by a sequence of calls
that all return, the display slot `ui_msg` is non-null.  As long as no `ui_register`
was called the table is the default one, with `printf` as display and null `ui_init`,
`ui_start` and `ui_cleanup`; once a `ui_register` has returned all four slots are
non-null. -/
theorem ui_table_invariant (cs : List Call) (rets : List Int) (s1 : State)
    (h : run cs initial = Except.ok (rets, s1)) :
    s1.ui.ui_msg ≠ none
    ∧ (cs.any Call.is_register = false →
        s1.ui.ui_init = none ∧ s1.ui.ui_start = none ∧ s1.ui.ui_cleanup = none ∧
          s1.ui.ui_msg = some Callee.printf)
    ∧ (cs.any Call.is_register = true →
        s1.ui.ui_init ≠ none ∧ s1.ui.ui_start ≠ none ∧ s1.ui.ui_cleanup ≠ none ∧
          s1.ui.ui_msg ≠ none) := by
  have h0 : table_ok false initial.ui := by
    simp [table_ok, initial, ui_default]
  have hinv := run_table cs initial s1 rets false h h0
  rw [Bool.false_or] at hinv
  cases hreg : cs.any Call.is_register with
  | false =>
    rw [hreg] at hinv
    simp only [table_ok, Bool.false_eq_true, if_false] at hinv
    refine ⟨by simp [hinv.2.2.2], fun _ => hinv, fun hc => by simp at hc⟩
  | true =>
    rw [hreg] at hinv
    simp only [table_ok, if_true] at hinv
    exact ⟨hinv.2.2.2, fun hc => by simp at hc, fun _ => hinv⟩

/-- The table after registering the complete table and an init. -/
theorem ui_table_invariant_witness :
    ({ ui := { ops_full with initialized := 1 }, messages_queue := [],
       trace := [Event.init (Callee.backend 1)] } : State).ui.ui_msg ≠ none
    ∧ ([Call.ui_register ops_full, Call.ui_init].any Call.is_register = false →
        ({ ui := { ops_full with initialized := 1 }, messages_queue := [],
           trace := [Event.init (Callee.backend 1)] } : State).ui.ui_init = none ∧
        ({ ui := { ops_full with initialized := 1 }, messages_queue := [],
           trace := [Event.init (Callee.backend 1)] } : State).ui.ui_start = none ∧
        ({ ui := { ops_full with initialized := 1 }, messages_queue := [],
           trace := [Event.init (Callee.backend 1)] } : State).ui.ui_cleanup = none ∧
        ({ ui := { ops_full with initialized := 1 }, messages_queue := [],
           trace := [Event.init (Callee.backend 1)] } : State).ui.ui_msg =
            some Callee.printf)
    ∧ ([Call.ui_register ops_full, Call.ui_init].any Call.is_register = true →
        ({ ui := { ops_full with initialized := 1 }, messages_queue := [],
           trace := [Event.init (Callee.backend 1)] } : State).ui.ui_init ≠ none ∧
        ({ ui := { ops_full with initialized := 1 }, messages_queue := [],
           trace := [Event.init (Callee.backend 1)] } : State).ui.ui_start ≠ none ∧
        ({ ui := { ops_full with initialized := 1 }, messages_queue := [],
           trace := [Event.init (Callee.backend 1)] } : State).ui.ui_cleanup ≠ none ∧
        ({ ui := { ops_full with initialized := 1 }, messages_queue := [],
           trace := [Event.init (Callee.backend 1)] } : State).ui.ui_msg ≠ none) :=
  ui_table_invariant [Call.ui_register ops_full, Call.ui_init] []
    { ui := { ops_full with initialized := 1 }, messages_queue := [],
      trace := [Event.init (Callee.backend 1)] } rfl

/-- A text without `%` is written by `printf` as it is. -/
theorem printf_chars_verbatim :
    ∀ cs : List Char, (∀ c ∈ cs, c ≠ '%') → printf_chars cs = some cs := by
  intro cs
  induction cs with
  | nil => intro _; rfl
  | cons c rest ih =>
    intro h
    have hc : c ≠ '%' := h c (List.mem_cons_self c rest)
    have hrest := ih (fun d hd => h d (List.mem_cons_of_mem c hd))
    unfold printf_chars
    rw [if_neg hc, hrest]
    rfl

/-- C18: a drain on the default backend hands each queued text to `printf` as its
format, so the text "50%% off" is written as "50% off" and for the text "%s" what is
written is undefined; only a text without `%` is written as it is. -/
theorem default_display_format :
    ui_msg_flush 2 { initial with messages_queue := queue_of ["50%% off", "%s"] } =
        Except.ok (2, { ui := ui_default, messages_queue := [],
                        trace := [Event.msg Callee.printf "50%% off",
                                  Event.msg Callee.printf "%s"] })
      ∧ written [Event.msg Callee.printf "50%% off", Event.msg Callee.printf "%s"] =
          [some "50% off", none]
      ∧ printf "50%% off" ≠ some "50%% off"
      ∧ (∀ t : String, (∀ c ∈ t.data, c ≠ '%') → printf t = some t) := by
  refine ⟨by decide, by decide, by decide, ?_⟩
  intro t ht
  simp [printf, printf_chars_verbatim t.data ht]

end EcUi
